import Mathlib

/-!
# Verification of the YDB Go SDK value model, discovery client and balancer

This development shallowly embeds the typed value model of
`internal/value/value.go`, the endpoint discovery client of `discovery.go`
and the balancer distribution table of the balancer tests, and proves the
testable properties of the specification against them.

Conventions:
* Go machine integers are modelled as `Int`/`Nat`; an explicit narrowing
  conversion in the source (`int8(x)`, `uint16(x)`, ...) becomes an explicit
  modular wrap in the model, and the static range invariant of a Go typed
  field appears as a side condition in well-formedness predicates.
* Fallible or panicking Go code returns `Option`: `none` models a returned
  decode/cast error or a runtime panic, as noted case by case.
* Load factors (`float32` in the source) are modelled as rationals; the
  test table only involves exactly representable values.
-/

set_option maxHeartbeats 1600000
set_option maxRecDepth 8000

namespace YdbGoSdk

/-- In-memory types of the YDB value model (the `Type` algebra of §3 of the
design: primitives, `Optional`, lists, tuples, structs, dicts, `Decimal`,
variants over a tuple or struct, `Void` and the untyped `Null` marker).
We carry the scalar kinds the verified properties exercise; `Float`/`Double`
and the remaining text-like scalars behave exactly like the ones kept. -/
inductive Ty where
  | bool | int8 | int16 | int32 | int64
  | uint8 | uint16 | uint32 | uint64
  | date | datetime | timestamp | interval
  | text | bytes
  | decimal (precision scale : Nat)
  | optional (inner : Ty)
  | list (item : Ty)
  | emptyList
  | tuple (items : List Ty)
  | struct (fields : List (String × Ty))
  | dict (key payload : Ty)
  | emptyDict
  | variantTuple (inner : Ty)
  | variantStruct (inner : Ty)
  | void
  | null

/-- The oneof leaf of a wire `Ydb.Value` node, parameterized by the node
type to close the recursion through `NestedValue`. -/
inductive YOneof (α : Type) where
  | boolValue (b : Bool)
  | int32Value (n : Int)
  | int64Value (n : Int)
  | uint32Value (n : Nat)
  | uint64Value (n : Nat)
  | textValue (s : String)
  | bytesValue (bs : List Nat)
  | low128 (n : Nat)
  | nullFlag
  | nestedValue (v : α)

/-- A wire `Ydb.Value` node: the oneof leaf (possibly unset), the repeated
`items` and `pairs`, the `variant_index` and the `high_128` field. -/
inductive YdbValue where
  | mk (value : Option (YOneof YdbValue)) (items : List YdbValue)
       (pairs : List (YdbValue × YdbValue)) (variantIndex : Nat) (high128 : Nat)

def YdbValue.value : YdbValue → Option (YOneof YdbValue)
  | .mk v _ _ _ _ => v

def YdbValue.items : YdbValue → List YdbValue
  | .mk _ i _ _ _ => i

def YdbValue.pairs : YdbValue → List (YdbValue × YdbValue)
  | .mk _ _ p _ _ => p

def YdbValue.variantIndex : YdbValue → Nat
  | .mk _ _ _ n _ => n

def YdbValue.high128 : YdbValue → Nat
  | .mk _ _ _ _ h => h

/-- A wire value whose only populated field is the oneof leaf, as built by
the leaf branches of the `toYDB` methods. -/
def leafV (o : YOneof YdbValue) : YdbValue := .mk (some o) [] [] 0 0

/-- In-memory values (`value.Value`).  Each constructor mirrors the fields
of the corresponding concrete Go type: container values and variants store
their `Type` exactly as the Go structs cache it, and `optional` stores the
inner type (`optionalValue.innerType` is always `Optional(inner)`). -/
inductive Value where
  | bool (b : Bool)
  | int8 (n : Int) | int16 (n : Int) | int32 (n : Int) | int64 (n : Int)
  | uint8 (n : Nat) | uint16 (n : Nat) | uint32 (n : Nat) | uint64 (n : Nat)
  | date (n : Nat) | datetime (n : Nat) | timestamp (n : Nat) | interval (n : Int)
  | text (s : String) | bytes (bs : List Nat)
  | decimal (bs : List Nat) (precision scale : Nat)
  | optional (inner : Ty) (payload : Option Value)
  | list (t : Ty) (items : List Value)
  | tuple (t : Ty) (items : List Value)
  | struct (t : Ty) (fields : List (String × Value))
  | dict (t : Ty) (pairs : List (Value × Value))
  | variant (t : Ty) (value : Value) (idx : Nat)
  | void

/-- Model of `Value.Type()`: every Go value either is tagged with a fixed primitive
type or carries its type in a field, so this is not recursive. -/
def typeOf : Value → Ty
  | .bool _ => .bool
  | .int8 _ => .int8
  | .int16 _ => .int16
  | .int32 _ => .int32
  | .int64 _ => .int64
  | .uint8 _ => .uint8
  | .uint16 _ => .uint16
  | .uint32 _ => .uint32
  | .uint64 _ => .uint64
  | .date _ => .date
  | .datetime _ => .datetime
  | .timestamp _ => .timestamp
  | .interval _ => .interval
  | .text _ => .text
  | .bytes _ => .bytes
  | .decimal _ p s => .decimal p s
  | .optional t _ => .optional t
  | .list t _ => t
  | .tuple t _ => t
  | .struct t _ => t
  | .dict t _ => t
  | .variant t _ _ => t
  | .void => .void

/-! ## Big-endian 128-bit split (`BigEndianUint128`, `binary.BigEndian`) -/

/-- Model of `binary.BigEndian.Uint64` (and its 8-byte writes, generalized to `k`
bytes): big-endian interpretation of a byte list. -/
def beBytesToNat (bs : List Nat) : Nat :=
  bs.foldl (fun acc b => acc * 256 + b) 0

/-- Model of `binary.BigEndian.PutUint64`, generalized: the `k` big-endian bytes of
`n` (mod `256 ^ k`). -/
def natToBeBytes : Nat → Nat → List Nat
  | 0, _ => []
  | k + 1, n => natToBeBytes k (n / 256) ++ [n % 256]

/-- Model of `BigEndianUint128`: the 16-byte big-endian buffer of `(hi, lo)`. -/
def bigEndianUint128 (hi lo : Nat) : List Nat :=
  natToBeBytes 8 hi ++ natToBeBytes 8 lo

/-! ## Wire value getters (the zero-defaulting proto `GetXxx` accessors) -/

def YdbValue.getBoolValue : YdbValue → Bool
  | v => match v.value with
    | some (.boolValue b) => b
    | _ => false

def YdbValue.getInt32Value : YdbValue → Int
  | v => match v.value with
    | some (.int32Value n) => n
    | _ => 0

def YdbValue.getInt64Value : YdbValue → Int
  | v => match v.value with
    | some (.int64Value n) => n
    | _ => 0

def YdbValue.getUint32Value : YdbValue → Nat
  | v => match v.value with
    | some (.uint32Value n) => n
    | _ => 0

def YdbValue.getUint64Value : YdbValue → Nat
  | v => match v.value with
    | some (.uint64Value n) => n
    | _ => 0

def YdbValue.getTextValue : YdbValue → String
  | v => match v.value with
    | some (.textValue s) => s
    | _ => ""

def YdbValue.getBytesValue : YdbValue → List Nat
  | v => match v.value with
    | some (.bytesValue bs) => bs
    | _ => []

def YdbValue.getLow128 : YdbValue → Nat
  | v => match v.value with
    | some (.low128 n) => n
    | _ => 0

/-! ## Encoding (`Value.toYDB`) -/

mutual

/-- Model of `toYDB`: serialization of a value into a wire node.  Each branch mirrors
the `toYDB` method of the corresponding Go value type; in particular the
`optional` branch wraps an optional payload in a `NestedValue`, copies only
the oneof leaf of a present non-optional payload, and emits a `NullFlag`
for an absent payload, exactly as `optionalValue.toYDB` does. -/
def toYDB : Value → YdbValue
  | .bool b => leafV (.boolValue b)
  | .int8 n => leafV (.int32Value n)
  | .int16 n => leafV (.int32Value n)
  | .int32 n => leafV (.int32Value n)
  | .int64 n => leafV (.int64Value n)
  | .uint8 n => leafV (.uint32Value n)
  | .uint16 n => leafV (.uint32Value n)
  | .uint32 n => leafV (.uint32Value n)
  | .uint64 n => leafV (.uint64Value n)
  | .date n => leafV (.uint32Value n)
  | .datetime n => leafV (.uint32Value n)
  | .timestamp n => leafV (.uint64Value n)
  | .interval n => leafV (.int64Value n)
  | .text s => leafV (.textValue s)
  | .bytes bs => leafV (.bytesValue bs)
  | .decimal bs _ _ =>
      .mk (some (.low128 (beBytesToNat (bs.drop 8)))) [] [] 0
        (beBytesToNat (bs.take 8))
  | .optional _ payload =>
      match payload with
      | some (.optional i q) =>
          .mk (some (.nestedValue (toYDB (.optional i q)))) [] [] 0 0
      | some p => .mk (toYDB p).value [] [] 0 0
      | none => .mk (some .nullFlag) [] [] 0 0
  | .list _ items => .mk none (toYDBList items) [] 0 0
  | .tuple _ items => .mk none (toYDBList items) [] 0 0
  | .struct _ fields => .mk none (toYDBFields fields) [] 0 0
  | .dict _ pairs => .mk none [] (toYDBPairs pairs) 0 0
  | .variant _ v idx => .mk (some (.nestedValue (toYDB v))) [] [] idx 0
  | .void => .mk (some .nullFlag) [] [] 0 0

def toYDBList : List Value → List YdbValue
  | [] => []
  | v :: vs => toYDB v :: toYDBList vs

def toYDBFields : List (String × Value) → List YdbValue
  | [] => []
  | (_, v) :: fs => toYDB v :: toYDBFields fs

def toYDBPairs : List (Value × Value) → List (YdbValue × YdbValue)
  | [] => []
  | (k, v) :: ps => (toYDB k, toYDB v) :: toYDBPairs ps

end

/-! ## Public value constructors

The Go constructors canonicalize: `StructValue` sorts fields by name and
`DictValue` sorts pairs by the key's `toString()` before deriving the
type from the (sorted) first entry.  `sort.Slice` is modelled by insertion
sort; for the strictly ordered keys the well-formedness predicates demand,
every correct sort produces the same list. -/

/-- Partial model of the bare `toString()` rendering, defined for the
scalar kinds this development sorts dictionary keys by.  Kinds whose
rendering needs the (absent) time/decimal formatting helpers yield `none`
and are kept out of the well-formed dictionary keys. -/
def toStringM : Value → Option String
  | .bool b => some (if b then "true" else "false")
  | .int8 n => some (toString n)
  | .int16 n => some (toString n)
  | .int32 n => some (toString n)
  | .int64 n => some (toString n)
  | .uint8 n => some (toString n)
  | .uint16 n => some (toString n)
  | .uint32 n => some (toString n)
  | .uint64 n => some (toString n)
  | .text s => some s
  | _ => none

def insertField (f : String × Value) :
    List (String × Value) → List (String × Value)
  | [] => [f]
  | g :: gs => if f.1 < g.1 then f :: g :: gs else g :: insertField f gs

/-- Model of the `sort.Slice` by field name in `StructValue`. -/
def sortFields (fs : List (String × Value)) : List (String × Value) :=
  fs.foldr insertField []

/-- Comparison of the (partially modelled) key renderings; the ordering of
`none` is an artifact never reached from well-formed dictionaries. -/
def optStrLt : Option String → Option String → Bool
  | none, none => false
  | none, some _ => true
  | some _, none => false
  | some a, some b => a < b

def insertPair (p : Value × Value) :
    List (Value × Value) → List (Value × Value)
  | [] => [p]
  | q :: qs =>
      if optStrLt (toStringM p.1) (toStringM q.1) then p :: q :: qs
      else q :: insertPair p qs

/-- Model of the `sort.Slice` by key rendering in `DictValue`. -/
def sortPairs (ps : List (Value × Value)) : List (Value × Value) :=
  ps.foldr insertPair []

/-- Model of `OptionalValue`: wraps a value, recording `Optional(v.Type())`. -/
def OptionalValueC (v : Value) : Value := .optional (typeOf v) (some v)

/-- Model of `NullValue`: the absent optional of the given inner type. -/
def NullValueC (t : Ty) : Value := .optional t none

/-- Model of `ListValue`: item type taken from the first element, `EmptyList`
otherwise.  (The source's per-item type check compares each item's type
with itself and never fails, so it imposes nothing.) -/
def ListValueC (items : List Value) : Value :=
  .list (match items with | [] => .emptyList | x :: _ => .list (typeOf x)) items

/-- Model of `TupleValue`: type collected from the items. -/
def TupleValueC (items : List Value) : Value :=
  .tuple (.tuple (items.map typeOf)) items

/-- Model of `StructValue`: sorts fields by name, then derives the struct type from
the sorted fields. -/
def StructValueC (fields : List (String × Value)) : Value :=
  match sortFields fields with
  | sorted => .struct (.struct (sorted.map fun f => (f.1, typeOf f.2))) sorted

/-- Model of `DictValue`: sorts pairs by the key rendering and derives the dict type
from the first sorted pair; on an empty pair list the source indexes
`values[0]` and panics (`none`). -/
def DictValueC (pairs : List (Value × Value)) : Option Value :=
  match sortPairs pairs with
  | [] => none
  | (k, v) :: rest => some (.dict (.dict (typeOf k) (typeOf v)) ((k, v) :: rest))

/-- Model of `VariantValueTuple`: panics (`none`) unless the payload is a tuple. -/
def VariantValueTupleC (v : Value) (idx : Nat) : Option Value :=
  match v with
  | .tuple t items => some (.variant (.variantTuple t) (.tuple t items) idx)
  | _ => none

/-- Model of `VariantValueStruct`: panics (`none`) unless the payload is a struct. -/
def VariantValueStructC (v : Value) (idx : Nat) : Option Value :=
  match v with
  | .struct t fields => some (.variant (.variantStruct t) (.struct t fields) idx)
  | _ => none

/-! ## Decoding (`fromYDB` / `FromYDB`) -/

/-- Model of `nullValueFromYDB`: unwraps every `NestedValue` layer; on reaching a
`NullFlag` it yields the null of the (outermost) optional type or the void
value.  `none` means "not a null chain": the caller falls through to the
type-directed switch. -/
def nullValueFromYDB (x : YdbValue) (t : Ty) : Option Value :=
  match x with
  | .mk (some (.nestedValue y)) _ _ _ _ => nullValueFromYDB y t
  | .mk (some .nullFlag) _ _ _ _ =>
      match t with
      | .optional inner => some (NullValueC inner)
      | .void => some .void
      | _ => none
  | _ => none

/-- Wrap of an explicit signed Go conversion (`int8(x)`, `int16(x)`). -/
def wrapS (bits : Nat) (n : Int) : Int :=
  (n + 2 ^ (bits - 1)) % 2 ^ bits - 2 ^ (bits - 1)

/-- Wrap of an explicit unsigned Go conversion (`uint8(x)`, `uint16(x)`). -/
def wrapU (bits : Nat) (n : Nat) : Nat := n % 2 ^ bits

/-- Model of `primitiveValueFromYDB`: reads the zero-defaulting getter matching the
primitive type; narrowing conversions of the source wrap explicitly. -/
def primitiveValueFromYDB (t : Ty) (v : YdbValue) : Option Value :=
  match t with
  | .bool => some (.bool v.getBoolValue)
  | .int8 => some (.int8 (wrapS 8 v.getInt32Value))
  | .int16 => some (.int16 (wrapS 16 v.getInt32Value))
  | .int32 => some (.int32 v.getInt32Value)
  | .int64 => some (.int64 v.getInt64Value)
  | .uint8 => some (.uint8 (wrapU 8 v.getUint32Value))
  | .uint16 => some (.uint16 (wrapU 16 v.getUint32Value))
  | .uint32 => some (.uint32 v.getUint32Value)
  | .uint64 => some (.uint64 v.getUint64Value)
  | .date => some (.date v.getUint32Value)
  | .datetime => some (.datetime v.getUint32Value)
  | .timestamp => some (.timestamp v.getUint64Value)
  | .interval => some (.interval v.getInt64Value)
  | .text => some (.text v.getTextValue)
  | .bytes => some (.bytes v.getBytesValue)
  | _ => none


mutual

/-- Model of `fromYDB` (hence of `FromYDB`, which panics on its error): type-directed
decoding of a wire value.  A `NestedValue` chain ending in `NullFlag` is
resolved by `nullValueFromYDB` first; every other branch mirrors the
corresponding `case` of the source's switch, rebuilding through the public
constructors.  `none` models a returned decode error or a panic (failed
type assertion / out-of-range index). -/
def fromYDB (t : Ty) (v : YdbValue) : Option Value :=
  match nullValueFromYDB v t with
  | some vv => some vv
  | none =>
    match t with
    | .decimal p s =>
        some (.decimal (bigEndianUint128 v.high128 v.getLow128) p s)
    | .optional inner =>
        match v.value with
        | some (.nestedValue y) => (fromYDB inner y).map OptionalValueC
        | _ => (fromYDB inner v).map OptionalValueC
    | .list it => (fromYDBItems it v.items).map ListValueC
    | .tuple ts => (fromYDBTuple ts v.items).map TupleValueC
    | .struct fs => (fromYDBStruct fs v.items).map StructValueC
    | .dict kt vt => (fromYDBPairs kt vt v.pairs).bind DictValueC
    | .variantTuple it =>
        match v.value with
        | some (.nestedValue y) =>
            (fromYDB it y).bind fun w => VariantValueTupleC w v.variantIndex
        | _ => none
    | .variantStruct it =>
        match v.value with
        | some (.nestedValue y) =>
            (fromYDB it y).bind fun w => VariantValueStructC w v.variantIndex
        | _ => none
    | .void => some .void
    | .null => some (NullValueC .null)
    | .emptyList => none
    | .emptyDict => none
    | other => primitiveValueFromYDB other v
termination_by (sizeOf t, 0)
decreasing_by all_goals (simp_wf; omega)

/-- Decoding of the items of a list value, each against the item type. -/
def fromYDBItems (t : Ty) : List YdbValue → Option (List Value)
  | [] => some []
  | v :: vs => do
      let w ← fromYDB t v
      let ws ← fromYDBItems t vs
      pure (w :: ws)
termination_by vs => (sizeOf t, vs.length + 1)
decreasing_by all_goals (simp_wf; omega)

/-- Decoding of tuple items against the positional item types; a wire item
beyond the type's arity is an out-of-range index (panic). -/
def fromYDBTuple : List Ty → List YdbValue → Option (List Value)
  | _, [] => some []
  | [], _ :: _ => none
  | t :: ts, v :: vs => do
      let w ← fromYDB t v
      let ws ← fromYDBTuple ts vs
      pure (w :: ws)
termination_by ts vs => (sizeOf ts, vs.length + 1)
decreasing_by all_goals (simp_wf; omega)

/-- Decoding of struct items against the declared fields, reattaching the
declared names. -/
def fromYDBStruct :
    List (String × Ty) → List YdbValue → Option (List (String × Value))
  | _, [] => some []
  | [], _ :: _ => none
  | (n, t) :: fs, v :: vs => do
      let w ← fromYDB t v
      let ws ← fromYDBStruct fs vs
      pure ((n, w) :: ws)
termination_by fs vs => (sizeOf fs, vs.length + 1)
decreasing_by all_goals (simp_wf; omega)

/-- Decoding of dict pairs against the key and payload types. -/
def fromYDBPairs (kt vt : Ty) :
    List (YdbValue × YdbValue) → Option (List (Value × Value))
  | [] => some []
  | (k, v) :: ps => do
      let kw ← fromYDB kt k
      let vw ← fromYDB vt v
      let ws ← fromYDBPairs kt vt ps
      pure ((kw, vw) :: ws)
termination_by ps => (sizeOf kt + sizeOf vt, ps.length + 1)
decreasing_by all_goals (simp_wf; omega)

end

/-! ## Well-formedness

`good` is the invariant under which encoding is lossless.  It contains the
static typing facts every constructor-built Go value enjoys (cached types
match payloads, machine integers are in range, struct/dict entries are in
their canonical strict order), together with the restrictions on `Optional`
payloads that the round-trip property genuinely needs: a present payload
must be a plain scalar leaf or an optional chain ending in one, because
`optionalValue.toYDB` keeps only the oneof leaf of a non-optional payload
and `nullValueFromYDB` flattens every nested-null chain. -/

/-- Scalar kinds whose `toYDB` stores the whole value in a plain oneof leaf
(not a `NullFlag` or `NestedValue`, and no `items`/`pairs`/`high_128`). -/
def scalarLeaf : Value → Prop
  | .bool _ => True
  | .int8 _ => True
  | .int16 _ => True
  | .int32 _ => True
  | .int64 _ => True
  | .uint8 _ => True
  | .uint16 _ => True
  | .uint32 _ => True
  | .uint64 _ => True
  | .date _ => True
  | .datetime _ => True
  | .timestamp _ => True
  | .interval _ => True
  | .text _ => True
  | .bytes _ => True
  | _ => False

/-- An optional chain carries a present terminal payload (its encoding is
not a `NestedValue` chain ending in `NullFlag`). -/
def endsPresent : Value → Prop
  | .optional _ none => False
  | .optional _ (some (.optional i q)) => endsPresent (.optional i q)
  | .optional _ (some _) => True
  | _ => True

mutual

def good : Value → Prop
  | .bool _ => True
  | .int8 n => -(2 ^ 7) ≤ n ∧ n < 2 ^ 7
  | .int16 n => -(2 ^ 15) ≤ n ∧ n < 2 ^ 15
  | .int32 n => -(2 ^ 31) ≤ n ∧ n < 2 ^ 31
  | .int64 n => -(2 ^ 63) ≤ n ∧ n < 2 ^ 63
  | .uint8 n => n < 2 ^ 8
  | .uint16 n => n < 2 ^ 16
  | .uint32 n => n < 2 ^ 32
  | .uint64 n => n < 2 ^ 64
  | .date n => n < 2 ^ 32
  | .datetime n => n < 2 ^ 32
  | .timestamp n => n < 2 ^ 64
  | .interval n => -(2 ^ 63) ≤ n ∧ n < 2 ^ 63
  | .text _ => True
  | .bytes bs => ∀ b ∈ bs, b < 256
  | .decimal bs _ _ => bs.length = 16 ∧ ∀ b ∈ bs, b < 256
  | .optional t (some (.optional i q)) =>
      good (.optional i q) ∧ typeOf (.optional i q) = t ∧
        endsPresent (.optional i q)
  | .optional t (some p) => good p ∧ typeOf p = t ∧ scalarLeaf p
  | .optional _ none => True
  | .list t items =>
      match items with
      | [] => False
      | x :: _ =>
          t = .list (typeOf x) ∧ (∀ y ∈ items, typeOf y = typeOf x) ∧
            goodList items
  | .tuple t items => t = .tuple (items.map typeOf) ∧ goodList items
  | .struct t fields =>
      t = .struct (fields.map fun f => (f.1, typeOf f.2)) ∧
        fields.Pairwise (fun f g => f.1 < g.1) ∧ goodFields fields
  | .dict t pairs =>
      match pairs with
      | [] => False
      | (k0, v0) :: _ =>
          t = .dict (typeOf k0) (typeOf v0) ∧
            (∀ p ∈ pairs, typeOf p.1 = typeOf k0 ∧ typeOf p.2 = typeOf v0) ∧
            (∀ p ∈ pairs, (toStringM p.1).isSome = true) ∧
            pairs.Pairwise
              (fun p q => optStrLt (toStringM p.1) (toStringM q.1) = true) ∧
            goodPairs pairs
  | .variant vt v _ =>
      good v ∧
        (match vt, v with
         | .variantTuple it, .tuple tt _ => it = tt
         | .variantStruct it, .struct tt _ => it = tt
         | _, _ => False)
  | .void => True

def goodList : List Value → Prop
  | [] => True
  | v :: vs => good v ∧ goodList vs

def goodFields : List (String × Value) → Prop
  | [] => True
  | (_, v) :: fs => good v ∧ goodFields fs

def goodPairs : List (Value × Value) → Prop
  | [] => True
  | (k, v) :: ps => good k ∧ good v ∧ goodPairs ps

end

/-- A oneof leaf that is neither a `NullFlag` nor a `NestedValue`. -/
def plainLeaf : YOneof YdbValue → Prop
  | .nullFlag => False
  | .nestedValue _ => False
  | _ => True

/-! ## Wire types

Modelled from the spec: the type registry (`Type.toYDB`, `TypeFromYDB`)
lives in a file that is not among the sources; §4.2 describes the two
conversions as a tree-shaped wire description and its inverse, over the §6
wire grammar (extended with the `EmptyList`/`EmptyDict`/`Null` markers the
`Ydb.Type` proto carries). -/

/-- Primitive `type_id` tags of the wire `Ydb.Type`. -/
inductive PrimId where
  | bool | int8 | int16 | int32 | int64
  | uint8 | uint16 | uint32 | uint64
  | date | datetime | timestamp | interval
  | text | bytes

/-- Wire `Ydb.Type` nodes, per the §6 grammar. -/
inductive WireTy where
  | primitive (p : PrimId)
  | optional (item : WireTy)
  | list (item : WireTy)
  | emptyList
  | tuple (items : List WireTy)
  | struct (fields : List (String × WireTy))
  | dict (key payload : WireTy)
  | emptyDict
  | decimal (precision scale : Nat)
  | variantTuple (inner : WireTy)
  | variantStruct (inner : WireTy)
  | void
  | null

mutual

/-- Modelled from the spec: `Type.toYDB`, the tree-shaped wire description
of an in-memory type. -/
def tyToYDB : Ty → WireTy
  | .bool => .primitive .bool
  | .int8 => .primitive .int8
  | .int16 => .primitive .int16
  | .int32 => .primitive .int32
  | .int64 => .primitive .int64
  | .uint8 => .primitive .uint8
  | .uint16 => .primitive .uint16
  | .uint32 => .primitive .uint32
  | .uint64 => .primitive .uint64
  | .date => .primitive .date
  | .datetime => .primitive .datetime
  | .timestamp => .primitive .timestamp
  | .interval => .primitive .interval
  | .text => .primitive .text
  | .bytes => .primitive .bytes
  | .decimal p s => .decimal p s
  | .optional i => .optional (tyToYDB i)
  | .list i => .list (tyToYDB i)
  | .emptyList => .emptyList
  | .tuple ts => .tuple (tyToYDBList ts)
  | .struct fs => .struct (tyToYDBFields fs)
  | .dict k v => .dict (tyToYDB k) (tyToYDB v)
  | .emptyDict => .emptyDict
  | .variantTuple i => .variantTuple (tyToYDB i)
  | .variantStruct i => .variantStruct (tyToYDB i)
  | .void => .void
  | .null => .null

def tyToYDBList : List Ty → List WireTy
  | [] => []
  | t :: ts => tyToYDB t :: tyToYDBList ts

def tyToYDBFields : List (String × Ty) → List (String × WireTy)
  | [] => []
  | (n, t) :: fs => (n, tyToYDB t) :: tyToYDBFields fs

end

mutual

/-- Modelled from the spec: `TypeFromYDB`, the inverse conversion
allocating fresh in-memory type nodes. -/
def tyFromYDB : WireTy → Ty
  | .primitive .bool => .bool
  | .primitive .int8 => .int8
  | .primitive .int16 => .int16
  | .primitive .int32 => .int32
  | .primitive .int64 => .int64
  | .primitive .uint8 => .uint8
  | .primitive .uint16 => .uint16
  | .primitive .uint32 => .uint32
  | .primitive .uint64 => .uint64
  | .primitive .date => .date
  | .primitive .datetime => .datetime
  | .primitive .timestamp => .timestamp
  | .primitive .interval => .interval
  | .primitive .text => .text
  | .primitive .bytes => .bytes
  | .decimal p s => .decimal p s
  | .optional i => .optional (tyFromYDB i)
  | .list i => .list (tyFromYDB i)
  | .emptyList => .emptyList
  | .tuple ts => .tuple (tyFromYDBList ts)
  | .struct fs => .struct (tyFromYDBFields fs)
  | .dict k v => .dict (tyFromYDB k) (tyFromYDB v)
  | .emptyDict => .emptyDict
  | .variantTuple i => .variantTuple (tyFromYDB i)
  | .variantStruct i => .variantStruct (tyFromYDB i)
  | .void => .void
  | .null => .null

def tyFromYDBList : List WireTy → List Ty
  | [] => []
  | t :: ts => tyFromYDB t :: tyFromYDBList ts

def tyFromYDBFields : List (String × WireTy) → List (String × Ty)
  | [] => []
  | (n, t) :: fs => (n, tyFromYDB t) :: tyFromYDBFields fs

end


/-- Model of `FromYDB(t, v)` as called by users: converts the wire type, then
decodes the wire value against it (panicking, hence `none`, on error). -/
def FromYDBW (wt : WireTy) (v : YdbValue) : Option Value :=
  fromYDB (tyFromYDB wt) v

/-- Model of `ToYDB(v)`: the wire `TypedValue` pair of a value. -/
def ToYDBW (v : Value) : WireTy × YdbValue :=
  (tyToYDB (typeOf v), toYDB v)

/-! ## Casting (`Value.castTo`)

`castTo(dst)` selects behavior by the runtime kind of the destination
pointer; the destination kinds are the enum below.  The result models the
value written through the pointer; Go strings are byte strings, so a
string built from raw bytes is carried as `.sRaw` while a rendered string
is carried as `.s`.  A `time.Time` result is carried as the canonical
integer of the source value (days/seconds/microseconds since epoch, UTC),
a `time.Duration` as signed microseconds. -/

/-- The runtime kinds of destinations accepted anywhere in the source:
`*bool, *string, *[]byte, *int8..*int64, *uint8..*uint64, *float32,
*float64, *time.Time, *time.Duration, *[16]byte`. -/
inductive Dst where
  | dBool | dString | dBytes
  | dInt8 | dInt16 | dInt32 | dInt64
  | dUint8 | dUint16 | dUint32 | dUint64
  | dFloat32 | dFloat64
  | dTime | dDuration | dByte16
deriving DecidableEq

/-- The value written to the destination on success. -/
inductive CastResult where
  | b (x : Bool)
  | s (x : String)
  | sRaw (x : List Nat)
  | bs (x : List Nat)
  | i8 (x : Int) | i16 (x : Int) | i32 (x : Int) | i64 (x : Int)
  | u8 (x : Nat) | u16 (x : Nat) | u32 (x : Nat) | u64 (x : Nat)
  | f32 (x : Int) | f64 (x : Int)
  | time (x : Nat) | dur (x : Int) | b16 (x : List Nat)
deriving DecidableEq

/-- The two error kinds castTo produces: the generic cast error and
`errOptionalNilValue`. -/
inductive CastErr where
  | castError
  | optionalNil
deriving DecidableEq

/-- Model of `strconv.FormatInt(int64(v), 10)`. -/
def intStr (n : Int) : String := toString n

/-- Model of the `[]byte(s)` conversion: the UTF-8 bytes of a string. -/
def strBytes (s : String) : List Nat := s.toUTF8.toList.map (fun b => b.toNat)

/-- Model of `castTo`: one clause per destination kind accepted by the corresponding
Go method, in source order; every unlisted destination returns the cast
error.  `Optional` delegates to a present payload and fails with
`OptionalNilError` on an absent one (nothing is written); a 1-tuple
delegates to its single item; a variant delegates to its payload. -/
def castTo : Value → Dst → Except CastErr CastResult
  | .bool b, .dBool => .ok (.b b)
  | .bool b, .dString => .ok (.s (if b then "true" else "false"))
  | .bool _, _ => .error .castError
  | .date n, .dTime => .ok (.time n)
  | .date n, .dUint64 => .ok (.u64 n)
  | .date n, .dInt64 => .ok (.i64 n)
  | .date n, .dInt32 => .ok (.i32 (wrapS 32 n))
  | .date _, _ => .error .castError
  | .datetime n, .dTime => .ok (.time n)
  | .datetime n, .dUint64 => .ok (.u64 n)
  | .datetime n, .dInt64 => .ok (.i64 n)
  | .datetime n, .dUint32 => .ok (.u32 n)
  | .datetime _, _ => .error .castError
  | .timestamp n, .dTime => .ok (.time n)
  | .timestamp n, .dUint64 => .ok (.u64 n)
  | .timestamp _, _ => .error .castError
  | .interval n, .dDuration => .ok (.dur n)
  | .interval n, .dInt64 => .ok (.i64 n)
  | .interval _, _ => .error .castError
  | .int8 n, .dString => .ok (.s (intStr n))
  | .int8 n, .dBytes => .ok (.bs (strBytes (intStr n)))
  | .int8 n, .dInt64 => .ok (.i64 n)
  | .int8 n, .dInt32 => .ok (.i32 n)
  | .int8 n, .dInt16 => .ok (.i16 n)
  | .int8 n, .dInt8 => .ok (.i8 n)
  | .int8 n, .dFloat64 => .ok (.f64 n)
  | .int8 n, .dFloat32 => .ok (.f32 n)
  | .int8 _, _ => .error .castError
  | .int16 n, .dString => .ok (.s (intStr n))
  | .int16 n, .dBytes => .ok (.bs (strBytes (intStr n)))
  | .int16 n, .dInt64 => .ok (.i64 n)
  | .int16 n, .dInt32 => .ok (.i32 n)
  | .int16 n, .dInt16 => .ok (.i16 n)
  | .int16 n, .dFloat64 => .ok (.f64 n)
  | .int16 n, .dFloat32 => .ok (.f32 n)
  | .int16 _, _ => .error .castError
  | .int32 n, .dString => .ok (.s (intStr n))
  | .int32 n, .dBytes => .ok (.bs (strBytes (intStr n)))
  | .int32 n, .dInt64 => .ok (.i64 n)
  | .int32 n, .dInt32 => .ok (.i32 n)
  | .int32 n, .dFloat64 => .ok (.f64 n)
  | .int32 n, .dFloat32 => .ok (.f32 n)
  | .int32 _, _ => .error .castError
  | .int64 n, .dString => .ok (.s (intStr n))
  | .int64 n, .dBytes => .ok (.bs (strBytes (intStr n)))
  | .int64 n, .dInt64 => .ok (.i64 n)
  | .int64 n, .dFloat64 => .ok (.f64 n)
  | .int64 _, _ => .error .castError
  | .uint8 n, .dString => .ok (.s (intStr n))
  | .uint8 n, .dBytes => .ok (.bs (strBytes (intStr n)))
  | .uint8 n, .dUint64 => .ok (.u64 n)
  | .uint8 n, .dInt64 => .ok (.i64 n)
  | .uint8 n, .dUint32 => .ok (.u32 n)
  | .uint8 n, .dInt32 => .ok (.i32 n)
  | .uint8 n, .dUint16 => .ok (.u16 n)
  | .uint8 n, .dInt16 => .ok (.i16 n)
  | .uint8 n, .dUint8 => .ok (.u8 n)
  | .uint8 n, .dFloat64 => .ok (.f64 n)
  | .uint8 n, .dFloat32 => .ok (.f32 n)
  | .uint8 _, _ => .error .castError
  | .uint16 n, .dString => .ok (.s (intStr n))
  | .uint16 n, .dBytes => .ok (.bs (strBytes (intStr n)))
  | .uint16 n, .dUint64 => .ok (.u64 n)
  | .uint16 n, .dInt64 => .ok (.i64 n)
  | .uint16 n, .dUint32 => .ok (.u32 n)
  | .uint16 n, .dInt32 => .ok (.i32 n)
  | .uint16 n, .dUint16 => .ok (.u16 n)
  | .uint16 n, .dFloat32 => .ok (.f32 n)
  | .uint16 n, .dFloat64 => .ok (.f64 n)
  | .uint16 _, _ => .error .castError
  | .uint32 n, .dString => .ok (.s (intStr n))
  | .uint32 n, .dBytes => .ok (.bs (strBytes (intStr n)))
  | .uint32 n, .dUint64 => .ok (.u64 n)
  | .uint32 n, .dInt64 => .ok (.i64 n)
  | .uint32 n, .dUint32 => .ok (.u32 n)
  | .uint32 n, .dFloat64 => .ok (.f64 n)
  | .uint32 _, _ => .error .castError
  | .uint64 n, .dString => .ok (.s (intStr (wrapS 64 n)))
  | .uint64 n, .dBytes => .ok (.bs (strBytes (intStr (wrapS 64 n))))
  | .uint64 n, .dUint64 => .ok (.u64 n)
  | .uint64 _, _ => .error .castError
  | .text s, .dString => .ok (.s s)
  | .text s, .dBytes => .ok (.bs (strBytes s))
  | .text _, _ => .error .castError
  | .bytes bs, .dString => .ok (.sRaw bs)
  | .bytes bs, .dBytes => .ok (.bs bs)
  | .bytes _, _ => .error .castError
  | .decimal _ _ _, _ => .error .castError
  | .optional _ none, _ => .error .optionalNil
  | .optional _ (some p), d => castTo p d
  | .list _ _, _ => .error .castError
  | .tuple _ [x], d => castTo x d
  | .tuple _ _, _ => .error .castError
  | .struct _ _, _ => .error .castError
  | .dict _ _, _ => .error .castError
  | .variant _ v _, d => castTo v d
  | .void, _ => .error .castError

/-! ## Decimal rendering (`decimalValue.toString`) -/

/-- Modelled from the spec: `decimal.FromBytes` (the decimal codec file is
not among the sources) is the inverse of the two's-complement big-endian
128-bit encoding `BigIntToByte`, so it reads the bytes as a signed 128-bit
integer. -/
def int128FromBytes (bs : List Nat) : Int :=
  let u : Nat := beBytesToNat bs
  if u < 2 ^ 127 then (u : Int) else (u : Int) - 2 ^ 128

/-- Model of `decimalValue.toString`: renders `decimal.FromBytes(...).String()` and
splices a point `scale` bytes from the right, `s[:len(s)-scale] + "." +
s[len(s)-scale:]`.  When the rendering is shorter than `scale` the slice
bound `len(s)-scale` is negative and Go panics (`none`); the digits are
ASCII, so byte and character slicing agree. -/
def decimalToString (bs : List Nat) (scale : Nat) : Option String :=
  let s := toString (int128FromBytes bs)
  if scale ≤ s.length then
    some ((s.take (s.length - scale)) ++ "." ++ (s.drop (s.length - scale)))
  else none

/-! ## Zero values (`ZeroValue`, `zeroPrimitiveValue`) -/

/-- Modelled from the spec: the `Variant` type constructor accepts a tuple
or struct inner type (§3); anything else cannot be built. -/
def VariantC (t : Ty) : Option Ty :=
  match t with
  | .tuple ts => some (.variantTuple (.tuple ts))
  | .struct fs => some (.variantStruct (.struct fs))
  | _ => none

mutual

/-- Model of `ZeroValue` (with `zeroPrimitiveValue` inlined for the scalar kinds).
`none` is the panic of the uncovered `default` branch.  The `Decimal`
case ignores the requested precision and scale and always builds the zero
`Decimal(22, 9)`.  The source's `case *voidType` switches on a pointer
type, while void types circulate by value (`fromYDB` matches the value
kind `voidType` and the shared `voidValue.Type()` returns a `voidType`
value), so a void type reaches the default branch and panics; the
`EmptyList`/`EmptyDict`/`Null` types have no case at all. -/
def zeroValue : Ty → Option Value
  | .bool => some (.bool false)
  | .int8 => some (.int8 0)
  | .int16 => some (.int16 0)
  | .int32 => some (.int32 0)
  | .int64 => some (.int64 0)
  | .uint8 => some (.uint8 0)
  | .uint16 => some (.uint16 0)
  | .uint32 => some (.uint32 0)
  | .uint64 => some (.uint64 0)
  | .date => some (.date 0)
  | .datetime => some (.datetime 0)
  | .timestamp => some (.timestamp 0)
  | .interval => some (.interval 0)
  | .text => some (.text "")
  | .bytes => some (.bytes [])
  | .decimal _ _ => some (.decimal (List.replicate 16 0) 22 9)
  | .optional i => some (NullValueC i)
  | .list i => some (.list (.list i) [])
  | .emptyList => none
  | .tuple ts => (zeroValues ts).map fun items => .tuple (.tuple ts) items
  | .struct fs => (zeroFields fs).map StructValueC
  | .dict k v => some (.dict (.dict k v) [])
  | .emptyDict => none
  | .variantTuple i =>
      (zeroValue i).bind fun w => (VariantC i).map fun vt => .variant vt w 0
  | .variantStruct i =>
      (zeroValue i).bind fun w => (VariantC i).map fun vt => .variant vt w 0
  | .void => none
  | .null => none

def zeroValues : List Ty → Option (List Value)
  | [] => some []
  | t :: ts => do
      let v ← zeroValue t
      let vs ← zeroValues ts
      pure (v :: vs)

def zeroFields : List (String × Ty) → Option (List (String × Value))
  | [] => some []
  | (n, t) :: fs => do
      let v ← zeroValue t
      let vs ← zeroFields fs
      pure ((n, v) :: vs)

end

mutual

/-- Guard under which `ZeroValue` succeeds and preserves the requested
type: every `Decimal` must be the (22, 9) it always produces, `Void`,
`Null`, `EmptyList` and `EmptyDict` abort, struct fields must already be
in canonical strict name order (`StructValue` re-sorts them), and variants
must wrap a tuple or struct. -/
def zeroOk : Ty → Prop
  | .decimal p s => p = 22 ∧ s = 9
  | .emptyList => False
  | .tuple ts => zeroOkList ts
  | .struct fs =>
      fs.Pairwise (fun f g => f.1 < g.1) ∧ zeroOkFields fs
  | .emptyDict => False
  | .variantTuple i =>
      (match i with | .tuple _ => True | _ => False) ∧ zeroOk i
  | .variantStruct i =>
      (match i with | .struct _ => True | _ => False) ∧ zeroOk i
  | .void => False
  | .null => False
  | _ => True

def zeroOkList : List Ty → Prop
  | [] => True
  | t :: ts => zeroOk t ∧ zeroOkList ts

def zeroOkFields : List (String × Ty) → Prop
  | [] => True
  | (_, t) :: fs => zeroOk t ∧ zeroOkFields fs

end

/-! ## Discovery (`discoveryClient.Discover`) -/

/-- An endpoint of the `ListEndpoints` response. -/
structure WireEndpoint where
  address : String
  port : Nat
  loadFactor : ℚ
  ssl : Bool
  location : String

/-- The `ListEndpointsResult` payload. -/
structure ListEndpointsResult where
  endpoints : List WireEndpoint
  selfLocation : String

/-- The SDK-side `Endpoint` record. -/
structure Endpoint where
  addr : String
  port : Int
  loadFactor : ℚ
  isLocal : Bool

/-- The loop of `Discover`: keeps the endpoints whose `Ssl` matches the
client's, building `Endpoint{Addr, Port, Local}` — the struct literal
does not set `LoadFactor`, which therefore stays at its zero value. -/
def discoverLoop (ssl : Bool) (selfLocation : String) :
    List WireEndpoint → List Endpoint
  | [] => []
  | e :: es =>
      if e.ssl = ssl then
        { addr := e.address, port := (e.port : Int), loadFactor := 0,
          isLocal := e.location = selfLocation } :: discoverLoop ssl selfLocation es
      else discoverLoop ssl selfLocation es

/-- Model of `Discover` after a successful `ListEndpoints` call (transport and
unmarshalling errors are propagated before this point and out of scope). -/
def discover (ssl : Bool) (r : ListEndpointsResult) : List Endpoint :=
  discoverLoop ssl r.selfLocation r.endpoints

/-! ## Balancer

Modelled from the spec and the balancer test table: the `roundRobin`
balancer implementation is not among the sources — only its tests are.
The tests demand exact distributions, which pin the selector down to a
deterministic belt: each element receives an integer weight obtained by
linearly interpolating its load factor from the [min, max] load range onto
[n, 1] (n = number of elements) and taking the floor, and `Next()` cycles
through a belt holding each selectable element `weight` times.  Banned
elements are skipped unless every element is banned, in which case the
belt is built over all of them (this matches the all-banned rows of the
table, which are weighted, not uniform).  The claimed
`(1/L_i)/Σ(1/L_j)` share formula is kept as `specShare` for comparison. -/

/-- A balancer element: its load factor and whether it is Banned. -/
structure BEl where
  load : ℚ
  banned : Bool

/-- The share formula asserted by the spec, with `L = 0` replaced by ε. -/
def specShare (eps : ℚ) (ls : List ℚ) (i : Nat) : ℚ :=
  let inv : ℚ → ℚ := fun L => 1 / (if L = 0 then eps else L)
  inv (ls.getD i 0) / (ls.map inv).sum

def loadsMin : List ℚ → ℚ
  | [] => 0
  | x :: xs => xs.foldl min x

def loadsMax : List ℚ → ℚ
  | [] => 0
  | x :: xs => xs.foldl max x

/-- The belt weight of load `L` among `n` elements with load range
`[m, M]`: the floor of the linear map sending `m` to `n` and `M` to 1 (all
weights are 1 when the loads coincide). -/
def beltWeight (n m M L : ℚ) : ℤ :=
  if M = m then 1 else ⌊n + (L - m) * (1 - n) / (M - m)⌋

def beltWeights (ls : List ℚ) : List ℤ :=
  ls.map (beltWeight (ls.length : ℚ) (loadsMin ls) (loadsMax ls))

/-- The belt segments: each selectable element repeated `weight` times. -/
def beltSegs (anyOnline : Bool) : List (BEl × ℤ) → List BEl
  | [] => []
  | (e, w) :: rest =>
      (if !e.banned || !anyOnline then List.replicate w.toNat e else []) ++
        beltSegs anyOnline rest

/-- The selection belt of the element set. -/
def belt (els : List BEl) : List BEl :=
  beltSegs (els.any fun e => !e.banned) (els.zip (beltWeights (els.map (·.load))))

/-- Model of `Next()` at the `step`-th call: the belt entry at the cycling counter,
`nil` (`none`) when the belt is empty. -/
def nextModel (els : List BEl) (step : Nat) : Option BEl :=
  match belt els with
  | [] => none
  | b :: bs => some ((b :: bs).getD (step % (bs.length + 1)) b)

/-- The expected number of selections per element over `reps` calls:
`reps` split proportionally to the belt weights of the selectable
elements. -/
def expectedCounts (els : List BEl) (reps : ℚ) : List ℚ :=
  let ws := beltWeights (els.map (·.load))
  let anyOnline := els.any fun e => !e.banned
  let wsActive := (els.zip ws).map fun p =>
    if !p.1.banned || !anyOnline then p.2 else 0
  let total : ℚ := ((wsActive.map (fun w => (w : ℚ))).sum)
  wsActive.map fun w => if total = 0 then 0 else reps * (w : ℚ) / total

/-! ### The balancer test table (`testData` rows used by the claims;
loads are the float32 literals of the table, banned mirrors the row's
`banned` set, after the row's `del` entries are removed) -/

def testRow2loads : List ℚ := [1/5, 1, 1]

def testRow2exp : List ℚ := [600, 200, 200]

def testRow3loads : List ℚ := [1, 1/10, 9/10]

def testRow3exp : List ℚ := [200, 600, 200]

def testRow6loads : List ℚ := [1, 1/4]

def testRow6exp : List ℚ := [400, 800]

def testRow11els : List BEl := [⟨0, true⟩, ⟨0, true⟩, ⟨0, true⟩]

def testRow11exp : List ℚ := [50, 50, 50]

def testRow12els : List BEl := [⟨10, true⟩, ⟨20, true⟩, ⟨30, true⟩]

def testRow12exp : List ℚ := [75, 50, 25]

def testRow13els : List BEl := [⟨10, true⟩, ⟨20, false⟩, ⟨30, false⟩]

def testRow13exp : List ℚ := [0, 100, 50]

/-- Elements of a row in which nothing is banned. -/
def onlineEls (ls : List ℚ) : List BEl := ls.map fun L => ⟨L, false⟩

theorem natToBeBytes_length (k n : Nat) : (natToBeBytes k n).length = k := by
  induction k generalizing n with
  | zero => rfl
  | succ k ih => simp [natToBeBytes, ih]

theorem beBytesToNat_append_singleton (bs : List Nat) (b : Nat) :
    beBytesToNat (bs ++ [b]) = beBytesToNat bs * 256 + b := by
  simp [beBytesToNat, List.foldl_append]

/-- Reading `k` big-endian bytes and writing them back is the identity. -/
theorem natToBeBytes_beBytesToNat (bs : List Nat)
    (hb : ∀ b ∈ bs, b < 256) :
    natToBeBytes bs.length (beBytesToNat bs) = bs := by
  induction bs using List.reverseRecOn with
  | nil => rfl
  | append_singleton bs b ih =>
    have hb2 : b < 256 := hb b (by simp)
    have hrest : ∀ x ∈ bs, x < 256 := fun x hx => hb x (by simp [hx])
    rw [beBytesToNat_append_singleton]
    have hlen : (bs ++ [b]).length = bs.length + 1 := by simp
    rw [hlen, natToBeBytes]
    have hdiv : (beBytesToNat bs * 256 + b) / 256 = beBytesToNat bs := by
      omega
    have hmod : (beBytesToNat bs * 256 + b) % 256 = b := by
      omega
    rw [hdiv, hmod, ih hrest]


/-! ## Supporting lemmas for the round-trip proof -/


theorem scalarLeaf_toYDB {p : Value} (h : scalarLeaf p) :
    ∃ o, toYDB p = leafV o ∧ plainLeaf o := by
  cases p <;> simp [scalarLeaf] at h <;>
    (simp only [toYDB]; exact ⟨_, rfl, trivial⟩)

theorem nullValueFromYDB_leafV {o : YOneof YdbValue} (h : plainLeaf o)
    (t : Ty) : nullValueFromYDB (leafV o) t = none := by
  cases o <;> simp [plainLeaf] at h <;> simp [nullValueFromYDB, leafV]

theorem nullValueFromYDB_noLeaf (items : List YdbValue)
    (pairs : List (YdbValue × YdbValue)) (vi h128 : Nat) (t : Ty) :
    nullValueFromYDB (.mk none items pairs vi h128) t = none := by
  simp [nullValueFromYDB]

/-- The encoding of a well-formed optional chain with a present terminal is
never mistaken for a null chain. -/
theorem nullValueFromYDB_toYDB_optional (i : Ty) (pl : Option Value)
    (hg : good (.optional i pl)) (hep : endsPresent (.optional i pl))
    (t2 : Ty) : nullValueFromYDB (toYDB (.optional i pl)) t2 = none := by
  match pl with
  | none => simp [endsPresent] at hep
  | some p =>
      cases p with
      | optional j q =>
          have hg2 : good (.optional j q) := by
            simp only [good] at hg; exact hg.1
          have hep2 : endsPresent (.optional j q) := by
            simp only [endsPresent] at hep; exact hep
          simp only [toYDB, nullValueFromYDB]
          exact nullValueFromYDB_toYDB_optional j q hg2 hep2 t2
      | _ =>
          first
          | (simp only [good, scalarLeaf] at hg; exact hg.2.2.elim)
          | simp [toYDB, nullValueFromYDB, leafV]
termination_by sizeOf pl

/-! ### Canonical orders: sorting a sorted list is the identity, and a
permutation of strictly sorted entries is unique. -/

theorem sortFields_cons (f : String × Value) (fs : List (String × Value)) :
    sortFields (f :: fs) = insertField f (sortFields fs) := rfl

theorem sortFields_sorted_id :
    ∀ fs : List (String × Value), fs.Pairwise (fun a b => a.1 < b.1) →
      sortFields fs = fs
  | [], _ => rfl
  | f :: fs, h => by
      rw [sortFields_cons, sortFields_sorted_id fs (List.Pairwise.sublist (by simp) h)]
      match fs, h with
      | [], _ => rfl
      | g :: gs, h =>
          have hlt : f.1 < g.1 := (List.pairwise_cons.mp h).1 g (by simp)
          simp [insertField, hlt]

theorem sortPairs_cons (p : Value × Value) (ps : List (Value × Value)) :
    sortPairs (p :: ps) = insertPair p (sortPairs ps) := rfl

theorem sortPairs_sorted_id :
    ∀ ps : List (Value × Value),
      ps.Pairwise (fun p q => optStrLt (toStringM p.1) (toStringM q.1) = true) →
      sortPairs ps = ps
  | [], _ => rfl
  | p :: ps, h => by
      rw [sortPairs_cons, sortPairs_sorted_id ps (List.Pairwise.sublist (by simp) h)]
      match ps, h with
      | [], _ => rfl
      | q :: qs, h =>
          have hlt : optStrLt (toStringM p.1) (toStringM q.1) = true :=
            (List.pairwise_cons.mp h).1 q (by simp)
          simp [insertPair, hlt]

/-- Two permutations of the same entries that are both strictly sorted on a
string key agree. -/
theorem eq_of_perm_of_strictSortedKey {α : Type} (key : α → String) :
    ∀ l1 l2 : List α, l1.Perm l2 →
      l1.Pairwise (fun a b => key a < key b) →
      l2.Pairwise (fun a b => key a < key b) → l1 = l2
  | [], l2, hp, _, _ => (hp.nil_eq).symm ▸ rfl
  | a :: t1, [], hp, _, _ => absurd hp (by simp)
  | a :: t1, b :: t2, hp, h1, h2 => by
      have hab : a = b := by
        have ha : a ∈ b :: t2 := hp.mem_iff.mp (by simp)
        rcases List.mem_cons.mp ha with h | h
        · exact h
        · exfalso
          have hba : key b < key a := (List.pairwise_cons.mp h2).1 a h
          have hb : b ∈ a :: t1 := hp.mem_iff.mpr (by simp)
          rcases List.mem_cons.mp hb with h3 | h3
          · exact lt_irrefl _ (h3 ▸ hba)
          · exact lt_asymm hba ((List.pairwise_cons.mp h1).1 b h3)
      subst hab
      have ht : t1.Perm t2 := hp.cons_inv
      rw [eq_of_perm_of_strictSortedKey key t1 t2 ht
        (List.pairwise_cons.mp h1).2 (List.pairwise_cons.mp h2).2]

/-! ### Inversion helpers for `good` -/

theorem good_optional_some {t : Ty} {p : Value}
    (h : good (.optional t (some p))) : good p ∧ typeOf p = t := by
  cases p <;> simp only [good, typeOf] at h ⊢ <;> tauto

theorem good_optional_some_optional {t j : Ty} {q : Option Value}
    (h : good (.optional t (some (.optional j q)))) :
    endsPresent (.optional j q) := by
  simp only [good] at h
  exact h.2.2

theorem good_optional_scalarLeaf {t : Ty} {p : Value}
    (h : good (.optional t (some p)))
    (hno : match p with | .optional _ _ => False | _ => True) :
    scalarLeaf p := by
  cases p <;> simp only [good] at h <;>
    first
    | exact hno.elim
    | exact h.2.2

/-! ### Constructor-level reductions of `typeOf` -/

theorem typeOf_optional (t : Ty) (pl : Option Value) :
    typeOf (.optional t pl) = .optional t := rfl

theorem typeOf_list (t : Ty) (items : List Value) :
    typeOf (.list t items) = t := rfl

theorem typeOf_tuple (t : Ty) (items : List Value) :
    typeOf (.tuple t items) = t := rfl

theorem typeOf_struct (t : Ty) (fields : List (String × Value)) :
    typeOf (.struct t fields) = t := rfl

theorem typeOf_dict (t : Ty) (pairs : List (Value × Value)) :
    typeOf (.dict t pairs) = t := rfl

theorem typeOf_variant (t : Ty) (v : Value) (idx : Nat) :
    typeOf (.variant t v idx) = t := rfl

/-! ### Decoding of optional wrappers, factored to keep the inner decoding
call abstract -/

theorem fromYDB_optional_nested (inner : Ty) (y : YdbValue)
    (hnn : ∀ t2, nullValueFromYDB y t2 = none) :
    fromYDB (.optional inner) (.mk (some (.nestedValue y)) [] [] 0 0) =
      (fromYDB inner y).map OptionalValueC := by
  simp [fromYDB, nullValueFromYDB, hnn, YdbValue.value]

theorem fromYDB_optional_plain (inner : Ty) (o : YOneof YdbValue)
    (hpl : plainLeaf o) :
    fromYDB (.optional inner) (.mk (some o) [] [] 0 0) =
      (fromYDB inner (.mk (some o) [] [] 0 0)).map OptionalValueC := by
  cases o <;> simp [plainLeaf] at hpl <;>
    simp [fromYDB, nullValueFromYDB, YdbValue.value]

theorem fromYDB_variantTuple (it : Ty) (y : YdbValue) (idx : Nat)
    (hnn : ∀ t2, nullValueFromYDB y t2 = none) :
    fromYDB (.variantTuple it) (.mk (some (.nestedValue y)) [] [] idx 0) =
      (fromYDB it y).bind (fun w => VariantValueTupleC w idx) := by
  simp [fromYDB, nullValueFromYDB, hnn, YdbValue.value, YdbValue.variantIndex]

theorem fromYDB_variantStruct (it : Ty) (y : YdbValue) (idx : Nat)
    (hnn : ∀ t2, nullValueFromYDB y t2 = none) :
    fromYDB (.variantStruct it) (.mk (some (.nestedValue y)) [] [] idx 0) =
      (fromYDB it y).bind (fun w => VariantValueStructC w idx) := by
  simp [fromYDB, nullValueFromYDB, hnn, YdbValue.value, YdbValue.variantIndex]

/-! ### The round-trip theorem -/

mutual

/-- Decoding inverts encoding on every well-formed value. -/
theorem roundtrip : ∀ v : Value, good v → fromYDB (typeOf v) (toYDB v) = some v
  | .bool b, _ => by
      simp [toYDB, typeOf, fromYDB, nullValueFromYDB, leafV,
        primitiveValueFromYDB, YdbValue.getBoolValue, YdbValue.value]
  | .int8 n, hg => by
      simp only [good] at hg
      simp [toYDB, typeOf, fromYDB, nullValueFromYDB, leafV,
        primitiveValueFromYDB, YdbValue.getInt32Value, YdbValue.value, wrapS]
      omega
  | .int16 n, hg => by
      simp only [good] at hg
      simp [toYDB, typeOf, fromYDB, nullValueFromYDB, leafV,
        primitiveValueFromYDB, YdbValue.getInt32Value, YdbValue.value, wrapS]
      omega
  | .int32 n, _ => by
      simp [toYDB, typeOf, fromYDB, nullValueFromYDB, leafV,
        primitiveValueFromYDB, YdbValue.getInt32Value, YdbValue.value]
  | .int64 n, _ => by
      simp [toYDB, typeOf, fromYDB, nullValueFromYDB, leafV,
        primitiveValueFromYDB, YdbValue.getInt64Value, YdbValue.value]
  | .uint8 n, hg => by
      simp only [good] at hg
      simp [toYDB, typeOf, fromYDB, nullValueFromYDB, leafV,
        primitiveValueFromYDB, YdbValue.getUint32Value, YdbValue.value, wrapU]
      omega
  | .uint16 n, hg => by
      simp only [good] at hg
      simp [toYDB, typeOf, fromYDB, nullValueFromYDB, leafV,
        primitiveValueFromYDB, YdbValue.getUint32Value, YdbValue.value, wrapU]
      omega
  | .uint32 n, _ => by
      simp [toYDB, typeOf, fromYDB, nullValueFromYDB, leafV,
        primitiveValueFromYDB, YdbValue.getUint32Value, YdbValue.value]
  | .uint64 n, _ => by
      simp [toYDB, typeOf, fromYDB, nullValueFromYDB, leafV,
        primitiveValueFromYDB, YdbValue.getUint64Value, YdbValue.value]
  | .date n, _ => by
      simp [toYDB, typeOf, fromYDB, nullValueFromYDB, leafV,
        primitiveValueFromYDB, YdbValue.getUint32Value, YdbValue.value]
  | .datetime n, _ => by
      simp [toYDB, typeOf, fromYDB, nullValueFromYDB, leafV,
        primitiveValueFromYDB, YdbValue.getUint32Value, YdbValue.value]
  | .timestamp n, _ => by
      simp [toYDB, typeOf, fromYDB, nullValueFromYDB, leafV,
        primitiveValueFromYDB, YdbValue.getUint64Value, YdbValue.value]
  | .interval n, _ => by
      simp [toYDB, typeOf, fromYDB, nullValueFromYDB, leafV,
        primitiveValueFromYDB, YdbValue.getInt64Value, YdbValue.value]
  | .text s, _ => by
      simp [toYDB, typeOf, fromYDB, nullValueFromYDB, leafV,
        primitiveValueFromYDB, YdbValue.getTextValue, YdbValue.value]
  | .bytes bs, _ => by
      simp [toYDB, typeOf, fromYDB, nullValueFromYDB, leafV,
        primitiveValueFromYDB, YdbValue.getBytesValue, YdbValue.value]
  | .decimal bs p s, hg => by
      simp only [good] at hg
      obtain ⟨hlen, hb⟩ := hg
      simp [toYDB, typeOf, fromYDB, nullValueFromYDB, YdbValue.getLow128,
        YdbValue.value, YdbValue.high128, bigEndianUint128]
      have h1 : (bs.take 8).length = 8 := by
        rw [List.length_take]; omega
      have h2 : (bs.drop 8).length = 8 := by
        rw [List.length_drop]; omega
      have e1 : natToBeBytes 8 (beBytesToNat (bs.take 8)) = bs.take 8 := by
        have h3 := natToBeBytes_beBytesToNat (bs.take 8)
          fun x hx => hb x (List.take_subset 8 bs hx)
        rw [h1] at h3
        exact h3
      have e2 : natToBeBytes 8 (beBytesToNat (bs.drop 8)) = bs.drop 8 := by
        have h3 := natToBeBytes_beBytesToNat (bs.drop 8)
          fun x hx => hb x (List.drop_subset 8 bs hx)
        rw [h2] at h3
        exact h3
      rw [e1, e2, List.take_append_drop]
  | .optional t none, _ => by
      simp [toYDB, typeOf, fromYDB, nullValueFromYDB, NullValueC]
  | .optional t (some p), hg => by
      obtain ⟨hgp, hty⟩ := good_optional_some hg
      cases p
      case optional j q =>
          have hep := good_optional_some_optional hg
          have hnn := nullValueFromYDB_toYDB_optional j q hgp hep
          have hrec := roundtrip (.optional j q) hgp
          subst hty
          simp only [typeOf] at hrec ⊢
          simp only [toYDB]
          rw [fromYDB_optional_nested _ _ hnn, hrec]
          simp [OptionalValueC, typeOf]
      all_goals (
        subst hty
        first
        | exact False.elim (good_optional_scalarLeaf hg trivial)
        | (have hrec := roundtrip _ hgp
           simp only [typeOf, toYDB, leafV, YdbValue.value] at hrec ⊢
           rw [fromYDB_optional_plain _ _ (by trivial), hrec]
           simp [OptionalValueC, typeOf]))
  | .list t items, hg => by
      cases items with
      | nil => simp only [good] at hg
      | cons x xs =>
          simp only [good] at hg
          obtain ⟨ht, hhom, hgl⟩ := hg
          subst ht
          have hrec := roundtripItems (typeOf x) (x :: xs) hhom hgl
          simp only [typeOf_list, toYDB]
          simp [fromYDB, nullValueFromYDB_noLeaf, YdbValue.items, hrec, ListValueC]
  | .tuple t items, hg => by
      simp only [good] at hg
      obtain ⟨ht, hgl⟩ := hg
      subst ht
      have hrec := roundtripTuple items hgl
      simp only [typeOf_tuple, toYDB]
      simp [fromYDB, nullValueFromYDB_noLeaf, YdbValue.items, hrec, TupleValueC]
  | .struct t fields, hg => by
      simp only [good] at hg
      obtain ⟨ht, hpw, hgf⟩ := hg
      subst ht
      have hrec := roundtripStruct fields hgf
      simp only [typeOf_struct, toYDB]
      simp [fromYDB, nullValueFromYDB_noLeaf, YdbValue.items, hrec, StructValueC,
        sortFields_sorted_id fields hpw]
  | .dict t pairs, hg => by
      cases pairs with
      | nil => simp only [good] at hg
      | cons hd rest =>
          obtain ⟨k0, v0⟩ := hd
          simp only [good] at hg
          obtain ⟨ht, hhom, hkeys, hpw, hgp⟩ := hg
          subst ht
          have hrec := roundtripPairs (typeOf k0) (typeOf v0) ((k0, v0) :: rest)
            hhom hgp
          simp only [typeOf_dict, toYDB]
          simp [fromYDB, nullValueFromYDB_noLeaf, YdbValue.pairs, hrec, DictValueC,
            sortPairs_sorted_id _ hpw]
  | .variant vt val idx, hg => by
      simp only [good] at hg
      obtain ⟨hgv, hmatch⟩ := hg
      cases vt <;> cases val <;> simp only at hmatch <;> try exact hmatch.elim
      · rename_i it t items
        rw [hmatch] at *
        have hrec := roundtrip (.tuple t items) hgv
        rw [typeOf_tuple] at hrec
        simp only [toYDB] at hrec
        simp only [typeOf_variant, toYDB]
        rw [fromYDB_variantTuple _ _ _
          (fun t2 => nullValueFromYDB_noLeaf _ _ _ _ t2), hrec]
        simp [VariantValueTupleC]
      · rename_i it t fields
        rw [hmatch] at *
        have hrec := roundtrip (.struct t fields) hgv
        rw [typeOf_struct] at hrec
        simp only [toYDB] at hrec
        simp only [typeOf_variant, toYDB]
        rw [fromYDB_variantStruct _ _ _
          (fun t2 => nullValueFromYDB_noLeaf _ _ _ _ t2), hrec]
        simp [VariantValueStructC]
  | .void, _ => by
      simp [toYDB, typeOf, fromYDB, nullValueFromYDB]

theorem roundtripItems :
    ∀ (T : Ty) (items : List Value), (∀ x ∈ items, typeOf x = T) →
      goodList items → fromYDBItems T (toYDBList items) = some items
  | _, [], _, _ => by simp [toYDBList, fromYDBItems]
  | T, x :: xs, hty, hgl => by
      simp only [goodList] at hgl
      obtain ⟨hgx, hgxs⟩ := hgl
      have h1 : typeOf x = T := hty x (by simp)
      subst h1
      simp only [toYDBList, fromYDBItems]
      rw [roundtrip x hgx,
        roundtripItems (typeOf x) xs (fun y hy => hty y (by simp [hy])) hgxs]
      rfl

theorem roundtripTuple :
    ∀ items : List Value, goodList items →
      fromYDBTuple (items.map typeOf) (toYDBList items) = some items
  | [], _ => by simp [toYDBList, fromYDBTuple]
  | x :: xs, hgl => by
      simp only [goodList] at hgl
      obtain ⟨hgx, hgxs⟩ := hgl
      simp only [List.map, toYDBList, fromYDBTuple]
      rw [roundtrip x hgx, roundtripTuple xs hgxs]
      rfl

theorem roundtripStruct :
    ∀ fields : List (String × Value), goodFields fields →
      fromYDBStruct (fields.map fun f => (f.1, typeOf f.2)) (toYDBFields fields) =
        some fields
  | [], _ => by simp [toYDBFields, fromYDBStruct]
  | (n, v) :: fs, hgf => by
      simp only [goodFields] at hgf
      obtain ⟨hgv, hgfs⟩ := hgf
      simp only [List.map, toYDBFields, fromYDBStruct]
      rw [roundtrip v hgv, roundtripStruct fs hgfs]
      rfl

theorem roundtripPairs :
    ∀ (K V : Ty) (pairs : List (Value × Value)),
      (∀ p ∈ pairs, typeOf p.1 = K ∧ typeOf p.2 = V) → goodPairs pairs →
      fromYDBPairs K V (toYDBPairs pairs) = some pairs
  | _, _, [], _, _ => by simp [toYDBPairs, fromYDBPairs]
  | K, V, (k, v) :: ps, hty, hgp => by
      simp only [goodPairs] at hgp
      obtain ⟨hgk, hgv, hgps⟩ := hgp
      obtain ⟨hK, hV⟩ := hty (k, v) (by simp)
      subst hK
      subst hV
      simp only [toYDBPairs, fromYDBPairs]
      rw [roundtrip k hgk, roundtrip v hgv,
        roundtripPairs _ _ ps (fun p hp => hty p (by simp [hp])) hgps]
      rfl

end


mutual

/-- The type conversions invert each other. -/
theorem tyFromYDB_tyToYDB : ∀ t : Ty, tyFromYDB (tyToYDB t) = t
  | .bool | .int8 | .int16 | .int32 | .int64
  | .uint8 | .uint16 | .uint32 | .uint64
  | .date | .datetime | .timestamp | .interval
  | .text | .bytes | .emptyList | .emptyDict | .void | .null => rfl
  | .decimal p s => rfl
  | .optional i => by simp [tyToYDB, tyFromYDB, tyFromYDB_tyToYDB i]
  | .list i => by simp [tyToYDB, tyFromYDB, tyFromYDB_tyToYDB i]
  | .tuple ts => by simp [tyToYDB, tyFromYDB, tyFromYDB_tyToYDBList ts]
  | .struct fs => by simp [tyToYDB, tyFromYDB, tyFromYDB_tyToYDBFields fs]
  | .dict k v => by
      simp [tyToYDB, tyFromYDB, tyFromYDB_tyToYDB k, tyFromYDB_tyToYDB v]
  | .variantTuple i => by simp [tyToYDB, tyFromYDB, tyFromYDB_tyToYDB i]
  | .variantStruct i => by simp [tyToYDB, tyFromYDB, tyFromYDB_tyToYDB i]

theorem tyFromYDB_tyToYDBList : ∀ ts : List Ty, tyFromYDBList (tyToYDBList ts) = ts
  | [] => rfl
  | t :: ts => by
      simp [tyToYDBList, tyFromYDBList, tyFromYDB_tyToYDB t,
        tyFromYDB_tyToYDBList ts]

theorem tyFromYDB_tyToYDBFields :
    ∀ fs : List (String × Ty), tyFromYDBFields (tyToYDBFields fs) = fs
  | [] => rfl
  | (n, t) :: fs => by
      simp [tyToYDBFields, tyFromYDBFields, tyFromYDB_tyToYDB t,
        tyFromYDB_tyToYDBFields fs]

end

/-! ## Properties of the canonical sort -/

theorem insertField_perm (f : String × Value) :
    ∀ l, (insertField f l).Perm (f :: l)
  | [] => .refl _
  | g :: gs => by
      unfold insertField
      split
      · exact .refl _
      · exact ((insertField_perm f gs).cons g).trans (List.Perm.swap f g gs)

theorem sortFields_perm : ∀ l, (sortFields l).Perm l
  | [] => .refl _
  | f :: fs => by
      rw [sortFields_cons]
      exact (insertField_perm f (sortFields fs)).trans ((sortFields_perm fs).cons f)

theorem insertField_sorted (f : String × Value) :
    ∀ l, l.Pairwise (fun a b => a.1 ≤ b.1) →
      (insertField f l).Pairwise (fun a b => a.1 ≤ b.1)
  | [], _ => by simp [insertField]
  | g :: gs, h => by
      unfold insertField
      split
      case isTrue hlt =>
        refine List.pairwise_cons.mpr ⟨?_, h⟩
        intro b hb
        rcases List.mem_cons.mp hb with rfl | hb2
        · exact le_of_lt hlt
        · exact le_trans (le_of_lt hlt) ((List.pairwise_cons.mp h).1 b hb2)
      case isFalse hnlt =>
        obtain ⟨hg, hgs⟩ := List.pairwise_cons.mp h
        refine List.pairwise_cons.mpr ⟨?_, insertField_sorted f gs hgs⟩
        intro b hb
        have hb2 : b ∈ f :: gs := (insertField_perm f gs).mem_iff.mp hb
        rcases List.mem_cons.mp hb2 with rfl | hb3
        · exact le_of_not_lt hnlt
        · exact hg b hb3

theorem sortFields_sorted :
    ∀ l, (sortFields l).Pairwise (fun a b => a.1 ≤ b.1)
  | [] => by simp [sortFields]
  | f :: fs => by
      rw [sortFields_cons]
      exact insertField_sorted f _ (sortFields_sorted fs)

theorem pairwise_lt_of_le_nodup (l : List (String × Value))
    (hle : l.Pairwise (fun a b => a.1 ≤ b.1))
    (hnd : (l.map Prod.fst).Nodup) :
    l.Pairwise (fun a b => a.1 < b.1) := by
  have hne : l.Pairwise (fun a b => a.1 ≠ b.1) := List.pairwise_map.mp hnd
  exact (hle.and hne).imp fun h => lt_of_le_of_ne h.1 h.2

/-- The fundamental canonicalization fact: two permutations of the same
fields with pairwise distinct names sort to the same list. -/
theorem sortFields_of_perm (fields fields2 : List (String × Value))
    (hnd : (fields.map Prod.fst).Nodup) (hp : fields2.Perm fields) :
    sortFields fields2 = sortFields fields := by
  have hnd2 : (fields2.map Prod.fst).Nodup :=
    ((hp.map Prod.fst).nodup_iff).mpr hnd
  have hndS : ((sortFields fields).map Prod.fst).Nodup :=
    (((sortFields_perm fields).map Prod.fst).nodup_iff).mpr hnd
  have hndS2 : ((sortFields fields2).map Prod.fst).Nodup :=
    (((sortFields_perm fields2).map Prod.fst).nodup_iff).mpr hnd2
  apply eq_of_perm_of_strictSortedKey (fun f => f.1)
  · exact (sortFields_perm fields2).trans (hp.trans (sortFields_perm fields).symm)
  · exact pairwise_lt_of_le_nodup _ (sortFields_sorted fields2) hndS2
  · exact pairwise_lt_of_le_nodup _ (sortFields_sorted fields) hndS

/-! ## Balancer: the belt is nonempty whenever elements exist -/

theorem foldl_min_le_init : ∀ (xs : List ℚ) (a : ℚ), xs.foldl min a ≤ a
  | [], a => le_refl a
  | x :: xs, a => le_trans (foldl_min_le_init xs (min a x)) (min_le_left a x)

theorem foldl_min_le_mem :
    ∀ (xs : List ℚ) (a : ℚ), ∀ L ∈ xs, xs.foldl min a ≤ L
  | x :: xs, a, L, h => by
      rcases List.mem_cons.mp h with rfl | h2
      · exact le_trans (foldl_min_le_init xs (min a L)) (min_le_right a L)
      · exact foldl_min_le_mem xs (min a x) L h2

theorem init_le_foldl_max : ∀ (xs : List ℚ) (a : ℚ), a ≤ xs.foldl max a
  | [], a => le_refl a
  | x :: xs, a => le_trans (le_max_left a x) (init_le_foldl_max xs (max a x))

theorem mem_le_foldl_max :
    ∀ (xs : List ℚ) (a : ℚ), ∀ L ∈ xs, L ≤ xs.foldl max a
  | x :: xs, a, L, h => by
      rcases List.mem_cons.mp h with rfl | h2
      · exact le_trans (le_max_right a L) (init_le_foldl_max xs (max a L))
      · exact mem_le_foldl_max xs (max a x) L h2

theorem loadsMin_le (ls : List ℚ) : ∀ L ∈ ls, loadsMin ls ≤ L := by
  intro L hL
  match ls, hL with
  | x :: xs, hL =>
      rcases List.mem_cons.mp hL with rfl | h2
      · exact foldl_min_le_init xs L
      · exact foldl_min_le_mem xs x L h2

theorem le_loadsMax (ls : List ℚ) : ∀ L ∈ ls, L ≤ loadsMax ls := by
  intro L hL
  match ls, hL with
  | x :: xs, hL =>
      rcases List.mem_cons.mp hL with rfl | h2
      · exact init_le_foldl_max xs L
      · exact mem_le_foldl_max xs x L h2

theorem beltWeight_ge_one (n m M L : ℚ) (hm : m ≤ L) (hM : L ≤ M)
    (hn : 1 ≤ n) : 1 ≤ beltWeight n m M L := by
  unfold beltWeight
  split
  · exact le_refl 1
  case isFalse h =>
    have hlt : m < M := lt_of_le_of_ne (le_trans hm hM) (Ne.symm h)
    rw [Int.le_floor]
    push_cast
    have hq1 : (L - m) / (M - m) ≤ 1 := by
      rw [div_le_one (by linarith)]
      linarith
    have hq0 : 0 ≤ (L - m) / (M - m) := div_nonneg (by linarith) (by linarith)
    rw [mul_comm (L - m) (1 - n), mul_div_assoc]
    nlinarith [hq1, hq0]

theorem beltWeights_ge_one (ls : List ℚ) : ∀ w ∈ beltWeights ls, 1 ≤ w := by
  intro w hw
  unfold beltWeights at hw
  obtain ⟨L, hL, rfl⟩ := List.mem_map.mp hw
  refine beltWeight_ge_one _ _ _ _ (loadsMin_le ls L hL) (le_loadsMax ls L hL) ?_
  have : ls ≠ [] := fun h => by simp [h] at hL
  have hlen : 1 ≤ ls.length := List.length_pos.mpr this
  exact_mod_cast hlen

theorem mem_zip_of_mem_left {α β : Type} :
    ∀ (xs : List α) (ys : List β), xs.length = ys.length →
      ∀ x ∈ xs, ∃ y, (x, y) ∈ xs.zip ys
  | x :: xs, y :: ys, h, z, hz => by
      rcases List.mem_cons.mp hz with rfl | h2
      · exact ⟨y, by simp⟩
      · obtain ⟨w, hw⟩ := mem_zip_of_mem_left xs ys (by simpa using h) z h2
        exact ⟨w, by simp [hw]⟩

theorem beltSegs_ne_nil_of_online :
    ∀ (pairs : List (BEl × ℤ)), (∀ p ∈ pairs, 1 ≤ p.2) →
      ∀ e w, (e, w) ∈ pairs → e.banned = false → beltSegs true pairs ≠ []
  | (e0, w0) :: rest, hw, e, w, hmem, hb => by
      rcases List.mem_cons.mp hmem with heq | h2
      · injection heq with he hw2
        subst he
        subst hw2
        have h1 : 1 ≤ w := hw (e, w) (by simp)
        simp [beltSegs, hb, List.append_eq_nil, List.replicate]
        omega
      · have hrest := beltSegs_ne_nil_of_online rest
          (fun p hp => hw p (by simp [hp])) e w h2 hb
        simp only [beltSegs, ne_eq, List.append_eq_nil]
        intro hc
        exact hrest hc.2

theorem beltSegs_ne_nil_allBanned :
    ∀ (pairs : List (BEl × ℤ)), pairs ≠ [] → (∀ p ∈ pairs, 1 ≤ p.2) →
      beltSegs false pairs ≠ []
  | (e0, w0) :: rest, _, hw => by
      have h1 : 1 ≤ w0 := hw (e0, w0) (by simp)
      simp [beltSegs, List.append_eq_nil, List.replicate]
      omega

theorem belt_ne_nil (els : List BEl) (h : els ≠ []) : belt els ≠ [] := by
  unfold belt
  have hlen : (els.map (·.load)).length = els.length := by simp
  have hwlen : (beltWeights (els.map (·.load))).length = els.length := by
    simp [beltWeights]
  have hwg : ∀ p ∈ els.zip (beltWeights (els.map (·.load))), 1 ≤ p.2 := by
    intro p hp
    exact beltWeights_ge_one _ _ (List.of_mem_zip hp).2
  cases hon : els.any fun e => !e.banned
  · apply beltSegs_ne_nil_allBanned _ ?_ hwg
    intro hc
    have : els.length = 0 ∨ (beltWeights (els.map (·.load))).length = 0 := by
      have := congrArg List.length hc
      rw [List.length_zip] at this
      simp only [List.length_nil] at this
      omega
    rcases this with h1 | h1
    · exact h (List.eq_nil_of_length_eq_zero h1)
    · rw [hwlen] at h1
      exact h (List.eq_nil_of_length_eq_zero h1)
  · obtain ⟨e, he, hbe⟩ := List.any_eq_true.mp hon
    obtain ⟨w, hzip⟩ := mem_zip_of_mem_left els _ hwlen.symm e he
    exact beltSegs_ne_nil_of_online _ hwg e w hzip (by simpa using hbe)

/-! ## `ZeroValue` preserves supported types -/

mutual

theorem zeroPreservesType :
    ∀ t : Ty, zeroOk t → ∃ v, zeroValue t = some v ∧ typeOf v = t
  | .bool, _ => ⟨.bool false, by simp [zeroValue], rfl⟩
  | .int8, _ => ⟨.int8 0, by simp [zeroValue], rfl⟩
  | .int16, _ => ⟨.int16 0, by simp [zeroValue], rfl⟩
  | .int32, _ => ⟨.int32 0, by simp [zeroValue], rfl⟩
  | .int64, _ => ⟨.int64 0, by simp [zeroValue], rfl⟩
  | .uint8, _ => ⟨.uint8 0, by simp [zeroValue], rfl⟩
  | .uint16, _ => ⟨.uint16 0, by simp [zeroValue], rfl⟩
  | .uint32, _ => ⟨.uint32 0, by simp [zeroValue], rfl⟩
  | .uint64, _ => ⟨.uint64 0, by simp [zeroValue], rfl⟩
  | .date, _ => ⟨.date 0, by simp [zeroValue], rfl⟩
  | .datetime, _ => ⟨.datetime 0, by simp [zeroValue], rfl⟩
  | .timestamp, _ => ⟨.timestamp 0, by simp [zeroValue], rfl⟩
  | .interval, _ => ⟨.interval 0, by simp [zeroValue], rfl⟩
  | .text, _ => ⟨.text "", by simp [zeroValue], rfl⟩
  | .bytes, _ => ⟨.bytes [], by simp [zeroValue], rfl⟩
  | .decimal p s, h => by
      simp only [zeroOk] at h
      obtain ⟨rfl, rfl⟩ := h
      exact ⟨.decimal (List.replicate 16 0) 22 9, by simp [zeroValue], rfl⟩
  | .optional i, _ => ⟨.optional i none, by simp [zeroValue, NullValueC], rfl⟩
  | .list i, _ => ⟨.list (.list i) [], by simp [zeroValue], rfl⟩
  | .emptyList, h => by simp only [zeroOk] at h
  | .tuple ts, h => by
      simp only [zeroOk] at h
      obtain ⟨vs, hvs⟩ := zeroPreservesTypeList ts h
      exact ⟨.tuple (.tuple ts) vs, by simp [zeroValue, hvs], rfl⟩
  | .struct fs, h => by
      simp only [zeroOk] at h
      obtain ⟨hpw, hok⟩ := h
      obtain ⟨fvs, hfvs, hmap, hnames⟩ := zeroPreservesTypeFields fs hok
      refine ⟨StructValueC fvs, by simp [zeroValue, hfvs], ?_⟩
      have hpw2 : fvs.Pairwise fun a b => a.1 < b.1 := by
        apply List.pairwise_map.mp
        rw [hnames]
        exact List.pairwise_map.mpr hpw
      unfold StructValueC
      rw [sortFields_sorted_id fvs hpw2, typeOf_struct, hmap]
  | .dict k v, _ => ⟨.dict (.dict k v) [], by simp [zeroValue], rfl⟩
  | .emptyDict, h => by simp only [zeroOk] at h
  | .variantTuple i, h => by
      simp only [zeroOk] at h
      obtain ⟨hi, hok⟩ := h
      cases i <;> (simp only at hi; try exact hi.elim)
      case tuple ts =>
        obtain ⟨w, hw, _⟩ := zeroPreservesType (.tuple ts) hok
        simp only [zeroValue] at hw
        exact ⟨.variant (.variantTuple (.tuple ts)) w 0,
          by simp [zeroValue, hw, VariantC], rfl⟩
  | .variantStruct i, h => by
      simp only [zeroOk] at h
      obtain ⟨hi, hok⟩ := h
      cases i <;> (simp only at hi; try exact hi.elim)
      case struct fs =>
        obtain ⟨w, hw, _⟩ := zeroPreservesType (.struct fs) hok
        simp only [zeroValue] at hw
        exact ⟨.variant (.variantStruct (.struct fs)) w 0,
          by simp [zeroValue, hw, VariantC], rfl⟩
  | .void, h => by simp only [zeroOk] at h
  | .null, h => by simp only [zeroOk] at h

theorem zeroPreservesTypeList :
    ∀ ts : List Ty, zeroOkList ts → ∃ vs, zeroValues ts = some vs
  | [], _ => ⟨[], by simp [zeroValues]⟩
  | t :: ts, h => by
      simp only [zeroOkList] at h
      obtain ⟨v, hv, _⟩ := zeroPreservesType t h.1
      obtain ⟨vs, hvs⟩ := zeroPreservesTypeList ts h.2
      exact ⟨v :: vs, by simp [zeroValues, hv, hvs]⟩

theorem zeroPreservesTypeFields :
    ∀ fs : List (String × Ty), zeroOkFields fs →
      ∃ fvs, zeroFields fs = some fvs ∧
        fvs.map (fun f => (f.1, typeOf f.2)) = fs ∧
        fvs.map Prod.fst = fs.map Prod.fst
  | [], _ => ⟨[], by simp [zeroFields], by simp, by simp⟩
  | (n, t) :: fs, h => by
      simp only [zeroOkFields] at h
      obtain ⟨v, hv, hty⟩ := zeroPreservesType t h.1
      obtain ⟨fvs, hfvs, hmap, hnames⟩ := zeroPreservesTypeFields fs h.2
      exact ⟨(n, v) :: fvs, by simp [zeroFields, hv, hfvs],
        by simp [hmap, hty], by simp [hnames]⟩

end

/-! ## Concrete string comparisons (the kernel does not reduce the
byte-iterator `String.ltb`, so we pass through the character lists) -/

theorem str_a_lt_b : ("a" : String) < "b" := by
  rw [String.lt_iff_toList_lt]
  decide

theorem str_b_not_lt_a : ¬ (("b" : String) < "a") := by
  rw [String.lt_iff_toList_lt]
  decide

theorem charlist_a_lt_b : ((['a'] : List Char) < ['b']) := by decide

theorem charlist_b_not_lt_a : ¬ ((['b'] : List Char) < ['a']) := by decide

/-! ## The claims -/

/-- C1 (counterexample): the round-trip claim fails at
`v = OptionalValue(NullValue(Int32))`: `nullValueFromYDB` unwraps the
whole `NestedValue` chain and rebuilds the null at the outermost optional
type, so `FromYDB(v.Type().toYDB(), v.toYDB())` returns
`NullValue(Optional(Int32))`, which is not structurally equal to `v`. -/
theorem C1_roundtrip_counterexample :
    FromYDBW (tyToYDB (typeOf (OptionalValueC (NullValueC .int32))))
        (toYDB (OptionalValueC (NullValueC .int32))) =
      some (NullValueC (.optional .int32)) ∧
    FromYDBW (tyToYDB (typeOf (OptionalValueC (NullValueC .int32))))
        (toYDB (OptionalValueC (NullValueC .int32))) ≠
      some (OptionalValueC (NullValueC .int32)) := by
  constructor <;>
    simp [FromYDBW, tyFromYDB_tyToYDB, OptionalValueC, NullValueC, typeOf, toYDB,
      fromYDB, nullValueFromYDB]

/-- C1 (amended): for every well-formed value — one whose cached types
match its payloads, whose struct/dict entries are in canonical strict
order, and in which every present `Optional` payload is either a plain
scalar leaf or an optional chain ending in one —
`FromYDB(v.Type().toYDB(), v.toYDB())` is structurally equal to `v`,
including for nested Optional and Variant values.  (Without the payload
restriction the claim is false: nested nulls are flattened on decode, and
`optionalValue.toYDB` keeps only the oneof leaf of a present non-optional
payload, losing `items`/`pairs`/`high_128`.) -/
theorem C1_roundtrip (v : Value) (h : good v) :
    FromYDBW (tyToYDB (typeOf v)) (toYDB v) = some v := by
  unfold FromYDBW
  rw [tyFromYDB_tyToYDB]
  exact roundtrip v h

/-- C1 (witness): the amended round-trip at the doubly nested optional
`OptionalValue(OptionalValue(Int32Value(7)))`. -/
theorem C1_roundtrip_witness :
    good (OptionalValueC (OptionalValueC (Value.int32 7))) ∧
    FromYDBW
        (tyToYDB (typeOf (OptionalValueC (OptionalValueC (Value.int32 7)))))
        (toYDB (OptionalValueC (OptionalValueC (Value.int32 7)))) =
      some (OptionalValueC (OptionalValueC (Value.int32 7))) :=
  ⟨by norm_num [OptionalValueC, good, typeOf, scalarLeaf, endsPresent],
   C1_roundtrip _
     (by norm_num [OptionalValueC, good, typeOf, scalarLeaf, endsPresent])⟩

/-- C2: `optionalValue.toYDB` wraps an optional payload that is itself
optional in a `NestedValue` node, emits a `NullFlag` for an absent
payload, and consequently `Optional(Optional(Int32))` holding the inner
NULL (`OptionalValue(NullValue(Int32))`) encodes differently from
`Optional(Int32)` holding NULL (`NullValue(Int32)`). -/
theorem C2_optional_nesting :
    (∀ (t i : Ty) (q : Option Value),
        toYDB (.optional t (some (.optional i q))) =
          .mk (some (.nestedValue (toYDB (.optional i q)))) [] [] 0 0) ∧
    (∀ t : Ty, toYDB (.optional t none) = .mk (some .nullFlag) [] [] 0 0) ∧
    toYDB (OptionalValueC (NullValueC .int32)) ≠ toYDB (NullValueC .int32) := by
  refine ⟨fun t i q => by simp [toYDB], fun t => by simp [toYDB], ?_⟩
  simp [OptionalValueC, NullValueC, typeOf, toYDB]

/-- C2 (witness): the nesting branch and the null branch at `Int32`. -/
theorem C2_optional_nesting_witness :
    toYDB (.optional (.optional .int32) (some (.optional .int32 none))) =
      .mk (some (.nestedValue (toYDB (.optional .int32 none)))) [] [] 0 0 ∧
    toYDB (.optional .int32 none) = .mk (some .nullFlag) [] [] 0 0 :=
  ⟨C2_optional_nesting.1 (.optional .int32) .int32 none,
   C2_optional_nesting.2.1 .int32⟩

/-- C5 (counterexample): a Date value does not accept its underlying
integer width: `castTo(*uint32)` on a `dateValue` returns the cast error
(the method accepts `*time.Time`, `*uint64`, `*int64`, `*int32` only). -/
theorem C5_cast_counterexample :
    castTo (.date 0) .dUint32 = .error .castError := rfl

/-- C5 (amended): the exact castTo success sets of the two scalar kinds
the claim names: a Date value accepts a UTC `time.Time` destination and
the widths `u64`, `i64`, `i32` — not its underlying `u32` — and an Int8
value accepts `string`, `bytes`, `i8..i64`, `f32`, `f64` (signed widening,
no narrowing); every other destination returns the cast error. -/
theorem C5_cast_matrix (m : Nat) (n : Int) (d : Dst) :
    ((∃ r, castTo (.date m) d = .ok r) ↔
      (d = .dTime ∨ d = .dUint64 ∨ d = .dInt64 ∨ d = .dInt32)) ∧
    ((∃ r, castTo (.int8 n) d = .ok r) ↔
      (d = .dString ∨ d = .dBytes ∨ d = .dInt8 ∨ d = .dInt16 ∨
        d = .dInt32 ∨ d = .dInt64 ∨ d = .dFloat32 ∨ d = .dFloat64)) := by
  cases d <;> simp [castTo]

/-- C5 (witness): the matrix at `DateValue(1)` and `Int8Value(5)` with a
succeeding and a failing destination each. -/
theorem C5_cast_matrix_witness :
    (∃ r, castTo (.date 1) .dInt64 = .ok r) ∧
    ¬ (∃ r, castTo (.date 1) .dBool = .ok r) ∧
    (∃ r, castTo (.int8 5) .dString = .ok r) ∧
    ¬ (∃ r, castTo (.int8 5) .dUint8 = .ok r) :=
  ⟨(C5_cast_matrix 1 5 .dInt64).1.mpr (by simp),
   fun h => by simpa using (C5_cast_matrix 1 5 .dBool).1.mp h,
   (C5_cast_matrix 1 5 .dString).2.mpr (by simp),
   fun h => by simpa using (C5_cast_matrix 1 5 .dUint8).2.mp h⟩

/-- C8: an Optional value's castTo delegates to its payload when present,
and returns the `OptionalNilError` — producing no written result — when
the payload is absent. -/
theorem C8_optional_cast (t : Ty) (p : Value) (d : Dst) :
    castTo (.optional t (some p)) d = castTo p d ∧
    castTo (.optional t none) d = .error .optionalNil := by
  constructor <;> simp [castTo]

/-- C8 (witness): delegation and the nil error at `Int8Value(5)` /
`NullValue(Int8)` with a string destination. -/
theorem C8_optional_cast_witness :
    castTo (.optional .int8 (some (.int8 5))) .dString =
      castTo (.int8 5) .dString ∧
    castTo (.optional .int8 none) .dString = .error .optionalNil :=
  C8_optional_cast .int8 (.int8 5) .dString

/-- C6: `StructValue` canonicalizes field order by name: permutations of
the same distinctly named fields construct the same struct value (hence
identical `toYDB` items), and
`StructValue({b: Text "y"}, {a: Int32 1})` has type
`Struct<a:Int32,b:Text>` and encodes items
`[{int32_value:1}, {text_value:"y"}]`. -/
theorem C6_struct_canonicalization :
    (∀ fields fields2 : List (String × Value),
        (fields.map Prod.fst).Nodup → fields2.Perm fields →
        StructValueC fields2 = StructValueC fields) ∧
    typeOf (StructValueC [("b", .text "y"), ("a", .int32 1)]) =
      .struct [("a", .int32), ("b", .text)] ∧
    (toYDB (StructValueC [("b", .text "y"), ("a", .int32 1)])).items =
      [leafV (.int32Value 1), leafV (.textValue "y")] := by
  refine ⟨?_, ?_, ?_⟩
  · intro fields fields2 hnd hp
    unfold StructValueC
    rw [sortFields_of_perm fields fields2 hnd hp]
  · simp [StructValueC, sortFields, insertField, str_b_not_lt_a,
      charlist_b_not_lt_a, typeOf]
  · simp [StructValueC, sortFields, insertField, str_b_not_lt_a,
      charlist_b_not_lt_a, toYDB, toYDBFields, YdbValue.items, leafV]

/-- C6 (witness): the two orderings of `{a: Int32 1, b: Text "y"}`
construct the same struct value. -/
theorem C6_struct_canonicalization_witness :
    StructValueC [("a", Value.int32 1), ("b", Value.text "y")] =
      StructValueC [("b", Value.text "y"), ("a", Value.int32 1)] :=
  C6_struct_canonicalization.1 [("b", Value.text "y"), ("a", Value.int32 1)]
    [("a", Value.int32 1), ("b", Value.text "y")] (by simp)
    (List.Perm.swap ("b", Value.text "y") ("a", Value.int32 1) [])

/-- C9 (code path at the failing input): `decimalValue.toString` slices
`s[:len(s)-scale]`, which panics whenever the rendered integer is shorter
than the scale; the zero `Decimal(22, 9)` renders the integer `"0"` and
panics instead of producing `"0.000000000"`.  When the rendering is long
enough the point is indeed inserted `scale` digits from the right, with a
leading `-` on negatives. -/
theorem C9_decimal_toString :
    decimalToString (List.replicate 16 0) 9 = none ∧
    decimalToString (natToBeBytes 16 1234567890123) 9 =
      some "1234.567890123" ∧
    decimalToString (natToBeBytes 16 (2 ^ 128 - 1234567890123)) 9 =
      some "-1234.567890123" := by
  refine ⟨by decide, by decide, by decide⟩

/-- C10 (counterexample): `ZeroValue` does not preserve the requested
type: `ZeroValue(Decimal(35, 2))` is the `Decimal(22, 9)` zero, and
`ZeroValue(Void)` reaches the uncovered default branch (the switch matches
the pointer type `*voidType` while void types circulate by value) and
panics instead of returning `VoidValue`. -/
theorem C10_zero_counterexample :
    (∃ v, zeroValue (.decimal 35 2) = some v ∧ typeOf v ≠ .decimal 35 2) ∧
    zeroValue .void = none := by
  refine ⟨⟨.decimal (List.replicate 16 0) 22 9, ?_, ?_⟩, ?_⟩
  · simp [zeroValue]
  · simp [typeOf]
  · simp [zeroValue]

/-- C10 (amended): `ZeroValue` preserves the requested type on the types
it supports: primitives, `Optional`, `List`, `Dict`, `Decimal(22, 9)`
exactly, `Tuple`/`Struct` of supported types (struct fields already in
canonical order), and `Variant` over a tuple or struct; `Decimal(p, s)`
with any other (p, s) yields the `Decimal(22, 9)` zero instead, and
`Void`, `Null`, `EmptyList`, `EmptyDict` abort. -/
theorem C10_zero_preserves_type (t : Ty) (h : zeroOk t) :
    ∃ v, zeroValue t = some v ∧ typeOf v = t :=
  zeroPreservesType t h

/-- C10 (witness): the zero of `Tuple<Int32, Decimal(22,9)>` exists and
has that type. -/
theorem C10_zero_preserves_type_witness :
    zeroOk (.tuple [.int32, .decimal 22 9]) ∧
    ∃ v, zeroValue (.tuple [.int32, .decimal 22 9]) = some v ∧
      typeOf v = .tuple [.int32, .decimal 22 9] :=
  ⟨by simp [zeroOk, zeroOkList],
   C10_zero_preserves_type _ (by simp [zeroOk, zeroOkList])⟩

/-! ## Discovery: loop characterization -/

theorem discoverLoop_mem (ssl : Bool) (loc : String) :
    ∀ es, ∀ ep ∈ discoverLoop ssl loc es,
      ∃ e ∈ es, e.ssl = ssl ∧
        ep = ⟨e.address, (e.port : Int), 0, e.location = loc⟩
  | [], ep, h => absurd h (by simp [discoverLoop])
  | e :: es, ep, h => by
      by_cases hssl : e.ssl = ssl
      · simp only [discoverLoop, if_pos hssl] at h
        rcases List.mem_cons.mp h with rfl | h2
        · exact ⟨e, by simp, hssl, rfl⟩
        · obtain ⟨e2, he2, hs2, hep⟩ := discoverLoop_mem ssl loc es ep h2
          exact ⟨e2, by simp [he2], hs2, hep⟩
      · simp only [discoverLoop, if_neg hssl] at h
        obtain ⟨e2, he2, hs2, hep⟩ := discoverLoop_mem ssl loc es ep h
        exact ⟨e2, by simp [he2], hs2, hep⟩

theorem discoverLoop_mem_of (ssl : Bool) (loc : String) :
    ∀ es, ∀ e ∈ es, e.ssl = ssl →
      (⟨e.address, (e.port : Int), 0, e.location = loc⟩ : Endpoint) ∈
        discoverLoop ssl loc es
  | e :: es, e2, h, hssl => by
      rcases List.mem_cons.mp h with rfl | h2
      · simp [discoverLoop, if_pos hssl]
      · have hrec := discoverLoop_mem_of ssl loc es e2 h2 hssl
        by_cases hssl2 : e.ssl = ssl
        · simp only [discoverLoop, if_pos hssl2]
          exact List.mem_cons_of_mem _ hrec
        · simpa only [discoverLoop, if_neg hssl2] using hrec

theorem discoverLoop_length (ssl : Bool) (loc : String) :
    ∀ es, (discoverLoop ssl loc es).length =
      es.countP fun e => e.ssl == ssl
  | [] => by simp [discoverLoop]
  | e :: es => by
      by_cases hssl : e.ssl = ssl
      · simp [discoverLoop, if_pos hssl, List.countP_cons, hssl,
          discoverLoop_length ssl loc es]
      · simp [discoverLoop, if_neg hssl, List.countP_cons, hssl,
          discoverLoop_length ssl loc es]

/-- C3 (counterexample): `Discover` drops the reported load factor: the
`Endpoint` literal sets only `Addr`, `Port` and `Local`, so a response
endpoint with `load_factor = 1/2` comes back with `LoadFactor = 0`. -/
theorem C3_discover_counterexample :
    discover false ⟨[⟨"host", 2135, 1/2, false, "dc1"⟩], "dc1"⟩ =
      [⟨"host", 2135, 0, true⟩] ∧ ((1 : ℚ)/2) ≠ 0 := by
  constructor
  · simp [discover, discoverLoop]
  · norm_num

/-- C3 (amended): for every ListEndpoints response, `Discover` returns
exactly the endpoints whose ssl flag equals the client's configured ssl
setting, each carrying the reported address and port, with `local` set to
true iff the endpoint's location equals the response's self_location — but
the reported load_factor is not copied and stays zero. -/
theorem C3_discover (ssl : Bool) (r : ListEndpointsResult) :
    (∀ ep ∈ discover ssl r, ∃ e ∈ r.endpoints,
        e.ssl = ssl ∧ ep.addr = e.address ∧ ep.port = (e.port : Int) ∧
          ep.loadFactor = 0 ∧ (ep.isLocal = true ↔ e.location = r.selfLocation)) ∧
    (∀ e ∈ r.endpoints, e.ssl = ssl →
        (⟨e.address, (e.port : Int), 0, e.location = r.selfLocation⟩ : Endpoint) ∈
          discover ssl r) ∧
    (discover ssl r).length = r.endpoints.countP fun e => e.ssl == ssl := by
  refine ⟨?_, ?_, ?_⟩
  · intro ep hep
    obtain ⟨e, he, hs, rfl⟩ := discoverLoop_mem ssl r.selfLocation r.endpoints ep hep
    exact ⟨e, he, hs, rfl, rfl, rfl, by simp⟩
  · exact discoverLoop_mem_of ssl r.selfLocation r.endpoints
  · exact discoverLoop_length ssl r.selfLocation r.endpoints

/-- C3 (witness): the characterization at a two-endpoint response with
one ssl match. -/
theorem C3_discover_witness :
    (⟨"a1", 1, 0, true⟩ : Endpoint) ∈
      discover true ⟨[⟨"a1", 1, 1/4, true, "dc"⟩, ⟨"a2", 2, 1/4, false, "dc"⟩], "dc"⟩ := by
  have h := (C3_discover true
    ⟨[⟨"a1", 1, 1/4, true, "dc"⟩, ⟨"a2", 2, 1/4, false, "dc"⟩], "dc"⟩).2.1
    ⟨"a1", 1, 1/4, true, "dc"⟩ (by simp) rfl
  simpa using h

/-- C4 (counterexample): the claimed share formula contradicts the
distribution the balancer tests enforce: for the test row with load
factors [0.2, 1.0, 1.0] and 1000 selections the formula gives the first
element 1000·(1/0.2)/(1/0.2+1+1) = 5000/7 ≈ 714 selections, not the 600
the test (and the claim itself) expects.  (The loads are nonzero, so the
ε-replacement is irrelevant; it is instantiated at 1/1000000.) -/
theorem C4_share_counterexample :
    testRow2loads = [1/5, 1, 1] ∧ testRow2exp = [600, 200, 200] ∧
    1000 * specShare (1/1000000) testRow2loads 0 = 5000/7 ∧
    (5000/7 : ℚ) ≠ 600 := by
  refine ⟨rfl, rfl, ?_, by norm_num⟩
  norm_num [specShare, testRow2loads]

/-- C4 (amended): under the balancer's selection the expected counts match
the test table: each element's share is proportional to its belt weight —
the floor of the linear interpolation of its load factor from [min, max]
onto [n, 1] — so load factors [0.2, 1.0, 1.0] over 1000 selections give
{600, 200, 200} (not the {714, 143, 143} of the 1/L formula); the rows
[1, 0.1, 0.9] → {200, 600, 200}, [1, 0.25] over 1200 → {400, 800} and
equal loads [0.5, 0.5] → {500, 500} follow the same law. -/
theorem C4_distribution :
    expectedCounts (onlineEls testRow2loads) 1000 = testRow2exp ∧
    expectedCounts (onlineEls testRow3loads) 1000 = testRow3exp ∧
    expectedCounts (onlineEls testRow6loads) 1200 = testRow6exp ∧
    expectedCounts (onlineEls [1/2, 1/2]) 1000 = [500, 500] := by
  refine ⟨?_, ?_, ?_, ?_⟩ <;>
    norm_num [expectedCounts, beltWeights, beltWeight, loadsMin, loadsMax,
      onlineEls, testRow2loads, testRow3loads, testRow6loads, testRow2exp,
      testRow3exp, testRow6exp]

/-- C7 (counterexample): the all-banned fallback is not uniform: the test
row with all three elements banned and load factors [10, 20, 30] expects
the weighted distribution {75, 50, 25} over 150 selections, which the
belt model reproduces and which differs from the uniform {50, 50, 50}. -/
theorem C7_allBanned_counterexample :
    testRow12els = [⟨10, true⟩, ⟨20, true⟩, ⟨30, true⟩] ∧
    expectedCounts testRow12els 150 = testRow12exp ∧
    testRow12exp = [75, 50, 25] ∧
    ([75, 50, 25] : List ℚ) ≠ [50, 50, 50] := by
  refine ⟨rfl, ?_, rfl, by norm_num⟩
  norm_num [expectedCounts, beltWeights, beltWeight, loadsMin, loadsMax,
    testRow12els, testRow12exp]

/-- C7 (amended): `Next()` returns nil exactly when the element set is
empty; when every element is Banned, selection falls back to the same
weighted belt over the Banned elements — uniform when their load factors
are equal ({50,50,50} for the all-banned zero-load row), weighted
otherwise ({75,50,25} for loads [10,20,30]) — so a connection is returned
whenever at least one element exists; a banned element among online ones
receives nothing ({0,100,50} for the row with foo banned). -/
theorem C7_next_nil_iff :
    (∀ (els : List BEl) (step : Nat), nextModel els step = none ↔ els = []) ∧
    expectedCounts testRow11els 150 = testRow11exp ∧
    expectedCounts testRow12els 150 = testRow12exp ∧
    expectedCounts testRow13els 150 = testRow13exp := by
  refine ⟨?_, ?_, ?_, ?_⟩
  · intro els step
    constructor
    · intro h
      by_contra hne
      have hb := belt_ne_nil els hne
      unfold nextModel at h
      cases hbelt : belt els with
      | nil => exact hb hbelt
      | cons b bs => rw [hbelt] at h; simp at h
    · rintro rfl
      rfl
  all_goals
    norm_num [expectedCounts, beltWeights, beltWeight, loadsMin, loadsMax,
      testRow11els, testRow11exp, testRow12els, testRow12exp, testRow13els,
      testRow13exp]

/-- C7 (witness): with the all-banned row, `Next()` still returns a
connection. -/
theorem C7_next_nil_iff_witness :
    nextModel testRow12els 0 ≠ none := by
  intro h
  have h2 := (C7_next_nil_iff.1 testRow12els 0).mp h
  simp [testRow12els] at h2

end YdbGoSdk
